import Mathlib

/-!
Verification of the SovSeal Guardian-Weighted Threshold Recovery subsystem.

This file gives a shallow embedding of:

* the byte-wise Shamir secret-sharing primitive used by
  `src/lib/recovery/ShamirService.ts` (the wrapper validation is translated
  from the TypeScript source; the field arithmetic and split/combine cores of
  the external `shamir-secret-sharing` library are modelled from the spec:
  byte-wise Shamir over GF(2^8) with shares carrying a leading 1-indexed
  position byte, and combination by polynomial interpolation at x = 0);
* the on-ledger guardian registry `src/packages/contracts/src/SovSealRecovery.sol`;
* the off-ledger `RecoveryOrchestrator` session state machine of
  `src/unnamed/part_011`.

All definitions are executable; machine integers are modelled as `Nat` with
explicit bounds where the code guarantees them.
-/

set_option maxRecDepth 20000

/-! ## GF(2^8)

The finite field GF(2^8) with the AES/Rijndael reduction polynomial
x^8 + x^4 + x^3 + x + 1 (0x11B), as used by byte-wise Shamir implementations.
Addition is bitwise xor; multiplication is carry-less shift-and-add reduced
modulo 0x11B.
-/

/-- Multiplication by x in GF(2^8): shift left, keep the low byte, and fold the
overflow bit back in as 0x1B (the low byte of the reduction polynomial 0x11B). -/
def xtime (a : Nat) : Nat :=
  (2 * a) % 256 ^^^ (if a.testBit 7 then 27 else 0)

/-- Fueled carry-less multiply-and-reduce; 8 rounds process the 8 bits of `b`. -/
def mulF : Nat → Nat → Nat → Nat
  | 0, _, _ => 0
  | n + 1, a, b => (if b.testBit 0 then a else 0) ^^^ mulF n (xtime a) (b >>> 1)

/-- GF(2^8) multiplication on byte values. -/
def mulN (a b : Nat) : Nat := mulF 8 a b

/-- Exponential table for GF(2^8) with generator 3, encoded base 256
(entry `i` is `(EXPT >>> (8*i)) % 256`); entry 255 wraps to 1. -/
def EXPT : Nat := 247704880781559356684414323119999879637317647180040216102211349143305888774923398537951341803642731683984666991564019150676315804531779449815159115664189418245566988781254625896260912026622159780553349108386186142268315007856282091988200171439146255715840100601167723801170608095743514940052926055042184507632911811387723359914440662207451538163404716729158929845121383729837235901114109841630616474463024741216292666125260571984924724184385554713500007113061044175325657975136216706165622836048350080632971744177780693200859426168487707538171671676645432511882666690861394815764438377708986394032816479809277592321

/-- Discrete-log table, inverse to `EXPT` on 1..255; entry 0 is unused. -/
def LOGT : Nat := 939374623831894136699086600277250597547650664638770418422125146541797353646788332867483593573384618611044815625336497665827114626705134492515730415652478061620339993830966980270842846318821775850471098591710629241171812800746666233448222972174585295916389942636813666312872914849454985560152530477328703759683306625234997237483834721220409437442253146756845415190424543171129629468776480674528486868811725071010351012234056630775688111116293610821126543142160426617079940511630006820862697466582575257349116925728488930366609138264019883664906661504235885380294353134295748489096855100647154935187045898006656778240

/-- Table lookup: `expN i` is the `i`-th power of the generator 3. -/
def expN (i : Nat) : Nat := (EXPT >>> (8 * i)) % 256

/-- Table lookup: discrete logarithm base 3 of a nonzero byte. -/
def logN (a : Nat) : Nat := (LOGT >>> (8 * a)) % 256

/-- Multiplicative inverse of a byte: 0 for 0, else the generator raised to the
complement of the discrete log. -/
def invN (a : Nat) : Nat := if a = 0 then 0 else expN (255 - logN a)

theorem xor_lt_256 {x y : Nat} (hx : x < 256) (hy : y < 256) : x ^^^ y < 256 := by
  have h : (256 : Nat) = 2 ^ 8 := by norm_num
  rw [h] at hx hy ⊢
  exact Nat.xor_lt_two_pow hx hy

theorem xtime_lt (a : Nat) : xtime a < 256 := by
  have h1 : (2 * a) % 256 < 256 := Nat.mod_lt _ (by norm_num)
  have h2 : (if a.testBit 7 then 27 else 0) < 256 := by
    cases hb : a.testBit 7 <;> norm_num
  exact xor_lt_256 h1 h2

theorem mulF_lt : ∀ n a b, a < 256 → mulF n a b < 256 := by
  intro n
  induction n with
  | zero => intro a b _; exact Nat.zero_lt_succ _
  | succ n ih =>
    intro a b ha
    refine xor_lt_256 ?_ (ih (xtime a) (b >>> 1) (xtime_lt a))
    by_cases h : b.testBit 0 <;> simp [h, ha]

theorem mulN_lt {a : Nat} (ha : a < 256) (b : Nat) : mulN a b < 256 :=
  mulF_lt 8 a b ha

/-- Shuffle lemma for xor used when splitting a sum of products. -/
theorem xor_xor_comm (p q r s : Nat) :
    (p ^^^ q) ^^^ (r ^^^ s) = (p ^^^ r) ^^^ (q ^^^ s) := by
  rw [Nat.xor_assoc, ← Nat.xor_assoc q r s, Nat.xor_comm q r,
    Nat.xor_assoc r q s, ← Nat.xor_assoc]

theorem two_mul_xor (a b : Nat) : 2 * (a ^^^ b) = (2 * a) ^^^ (2 * b) := by
  have e : ∀ x : Nat, 2 * x = x <<< 1 := by
    intro x; rw [Nat.shiftLeft_eq]; ring
  rw [e, e, e]
  apply Nat.eq_of_testBit_eq
  intro i
  simp only [Nat.testBit_shiftLeft, Nat.testBit_xor]
  exact Bool.and_xor_distrib_left _ _ _

theorem mod_256_xor (a b : Nat) : (a ^^^ b) % 256 = (a % 256) ^^^ (b % 256) := by
  have h : ∀ x : Nat, x % 256 = x % 2 ^ 8 := by intro x; norm_num
  rw [h, h, h]
  apply Nat.eq_of_testBit_eq
  intro i
  simp only [Nat.testBit_mod_two_pow, Nat.testBit_xor]
  exact Bool.and_xor_distrib_left _ _ _

/-- `xtime` is additive: multiplication by x is linear over GF(2). -/
theorem xtime_xor (a b : Nat) : xtime (a ^^^ b) = xtime a ^^^ xtime b := by
  unfold xtime
  rw [two_mul_xor, mod_256_xor, Nat.testBit_xor]
  have hif : (if (a.testBit 7 ^^ b.testBit 7) then 27 else 0)
      = (if a.testBit 7 then 27 else 0) ^^^ (if b.testBit 7 then 27 else 0) := by
    cases ha : a.testBit 7 <;> cases hb : b.testBit 7 <;> simp
  rw [hif]
  exact xor_xor_comm _ _ _ _

theorem shiftRight_one_xor (b c : Nat) :
    (b ^^^ c) >>> 1 = (b >>> 1) ^^^ (c >>> 1) := by
  apply Nat.eq_of_testBit_eq
  intro i
  simp [Nat.testBit_shiftRight, Nat.testBit_xor]

/-- `mulF` is additive in its first (left factor) argument. -/
theorem mulF_xor_left : ∀ n a b c,
    mulF n (a ^^^ b) c = mulF n a c ^^^ mulF n b c := by
  intro n
  induction n with
  | zero => intro a b c; simp [mulF]
  | succ n ih =>
    intro a b c
    have hhead : (if c.testBit 0 then a ^^^ b else 0)
        = (if c.testBit 0 then a else 0) ^^^ (if c.testBit 0 then b else 0) := by
      cases c.testBit 0 <;> simp
    show (if c.testBit 0 then a ^^^ b else 0) ^^^ mulF n (xtime (a ^^^ b)) (c >>> 1)
        = ((if c.testBit 0 then a else 0) ^^^ mulF n (xtime a) (c >>> 1))
          ^^^ ((if c.testBit 0 then b else 0) ^^^ mulF n (xtime b) (c >>> 1))
    rw [hhead, xtime_xor a b, ih (xtime a) (xtime b) (c >>> 1)]
    exact xor_xor_comm _ _ _ _

/-- `mulF` is additive in its second (right factor) argument. -/
theorem mulF_xor_right : ∀ n a b c,
    mulF n a (b ^^^ c) = mulF n a b ^^^ mulF n a c := by
  intro n
  induction n with
  | zero => intro a b c; simp [mulF]
  | succ n ih =>
    intro a b c
    have hhead : (if (b ^^^ c).testBit 0 then a else 0)
        = (if b.testBit 0 then a else 0) ^^^ (if c.testBit 0 then a else 0) := by
      rw [Nat.testBit_xor]
      cases b.testBit 0 <;> cases c.testBit 0 <;> simp
    show (if (b ^^^ c).testBit 0 then a else 0) ^^^ mulF n (xtime a) ((b ^^^ c) >>> 1)
        = ((if b.testBit 0 then a else 0) ^^^ mulF n (xtime a) (b >>> 1))
          ^^^ ((if c.testBit 0 then a else 0) ^^^ mulF n (xtime a) (c >>> 1))
    rw [hhead, shiftRight_one_xor, ih (xtime a) (b >>> 1) (c >>> 1)]
    exact xor_xor_comm _ _ _ _

theorem mulF_zero_right : ∀ n a, mulF n a 0 = 0 := by
  intro n
  induction n with
  | zero => intro a; rfl
  | succ n ih => intro a; simp [mulF, ih]

theorem mulF_zero_left : ∀ n b, mulF n 0 b = 0 := by
  intro n
  induction n with
  | zero => intro b; rfl
  | succ n ih => intro b; simp [mulF, xtime, ih]

theorem mulN_zero_right (a : Nat) : mulN a 0 = 0 := mulF_zero_right 8 a

theorem mulN_zero_left (b : Nat) : mulN 0 b = 0 := mulF_zero_left 8 b

theorem mulN_xor_left (a b c : Nat) :
    mulN (a ^^^ b) c = mulN a c ^^^ mulN b c := mulF_xor_left 8 a b c

theorem mulN_xor_right (a b c : Nat) :
    mulN a (b ^^^ c) = mulN a b ^^^ mulN a c := mulF_xor_right 8 a b c

/-- Decompose a byte along its highest set bit: every property closed under
adding a fresh top bit holds of all bytes. -/
theorem byte_xor_induction (P : Nat → Prop) (h0 : P 0)
    (hstep : ∀ i, i < 8 → ∀ b, b < 2 ^ i → P b → P (2 ^ i ^^^ b)) :
    ∀ a, a < 256 → P a := by
  intro a
  induction a using Nat.strong_induction_on with
  | _ a ih =>
    intro ha
    rcases Nat.eq_zero_or_pos a with rfl | hpos
    · exact h0
    have hne : a ≠ 0 := Nat.pos_iff_ne_zero.mp hpos
    have hi8 : a.log2 < 8 := (Nat.log2_lt hne).mpr (by norm_num; omega)
    have hle : 2 ^ a.log2 ≤ a := Nat.log2_self_le hne
    have hlt : a < 2 ^ (a.log2 + 1) := (Nat.log2_lt hne).mp (Nat.lt_succ_self _)
    have h2pos : 0 < 2 ^ a.log2 := Nat.pos_pow_of_pos _ (by norm_num)
    have hdiv : a / 2 ^ a.log2 = 1 := by
      have hge : 1 ≤ a / 2 ^ a.log2 := (Nat.one_le_div_iff h2pos).mpr hle
      have hlt2 : a / 2 ^ a.log2 < 2 := by
        rw [Nat.div_lt_iff_lt_mul h2pos]
        calc a < 2 ^ (a.log2 + 1) := hlt
        _ = 2 * 2 ^ a.log2 := by ring
      omega
    have hta : a.testBit a.log2 = true := by
      have htn := Nat.toNat_testBit a a.log2
      rw [hdiv] at htn
      cases h : a.testBit a.log2
      · rw [h] at htn; simp at htn
      · rfl
    have hbi : a ^^^ 2 ^ a.log2 < 2 ^ a.log2 := by
      apply Nat.lt_pow_two_of_testBit
      intro j hj
      rcases Nat.eq_or_lt_of_le hj with rfl | hjgt
      · simp [Nat.testBit_xor, hta, Nat.testBit_two_pow]
      · have hj1 : 2 ^ (a.log2 + 1) ≤ 2 ^ j := Nat.pow_le_pow_right (by norm_num) hjgt
        have h1 : a.testBit j = false :=
          Nat.testBit_lt_two_pow (lt_of_lt_of_le hlt hj1)
        have h2 : (2 ^ a.log2).testBit j = false := by
          rw [Nat.testBit_two_pow]
          simp [Nat.ne_of_lt hjgt]
        simp [Nat.testBit_xor, h1, h2]
    have hba : a ^^^ 2 ^ a.log2 < a := lt_of_lt_of_le hbi hle
    have hb256 : a ^^^ 2 ^ a.log2 < 256 := by
      have h8 : (2 : Nat) ^ a.log2 ≤ 2 ^ 8 := Nat.pow_le_pow_right (by norm_num) (le_of_lt hi8)
      have := lt_of_lt_of_le hbi h8
      omega
    have hP : P (a ^^^ 2 ^ a.log2) := ih _ hba hb256
    have hout := hstep a.log2 hi8 _ hbi hP
    have hxa : 2 ^ a.log2 ^^^ (a ^^^ 2 ^ a.log2) = a := by
      rw [Nat.xor_comm a (2 ^ a.log2), ← Nat.xor_assoc, Nat.xor_self, Nat.zero_xor]
    rwa [hxa] at hout

theorem two_pow_lt_256 {i : Nat} (hi : i < 8) : 2 ^ i < 256 := by
  have : (2 : Nat) ^ i ≤ 2 ^ 7 := Nat.pow_le_pow_right (by norm_num) (by omega)
  omega

theorem lt_pow_lt_256 {i b : Nat} (hi : i < 8) (hb : b < 2 ^ i) : b < 256 :=
  lt_trans hb (two_pow_lt_256 hi)

theorem mulN_pow_pow_comm : ∀ i, i < 8 → ∀ j, j < 8 →
    mulN (2 ^ i) (2 ^ j) = mulN (2 ^ j) (2 ^ i) := by decide

theorem mulN_pow_pow_pow_assoc : ∀ i, i < 8 → ∀ j, j < 8 → ∀ k, k < 8 →
    mulN (mulN (2 ^ i) (2 ^ j)) (2 ^ k) = mulN (2 ^ i) (mulN (2 ^ j) (2 ^ k)) := by
  decide

theorem mulN_pow_comm (i : Nat) (hi : i < 8) :
    ∀ b, b < 256 → mulN (2 ^ i) b = mulN b (2 ^ i) := by
  refine byte_xor_induction (fun b => mulN (2 ^ i) b = mulN b (2 ^ i)) ?_ ?_
  · show mulN (2 ^ i) 0 = mulN 0 (2 ^ i)
    rw [mulN_zero_right, mulN_zero_left]
  · intro j hj b hb hIH
    rw [mulN_xor_right, mulN_xor_left, mulN_pow_pow_comm i hi j hj, hIH]

theorem mulN_comm : ∀ a, a < 256 → ∀ b, b < 256 → mulN a b = mulN b a := by
  refine byte_xor_induction (fun a => ∀ b, b < 256 → mulN a b = mulN b a) ?_ ?_
  · intro b _; rw [mulN_zero_right, mulN_zero_left]
  · intro i hi a hai hIH b hb
    rw [mulN_xor_left, mulN_xor_right, mulN_pow_comm i hi b hb, hIH b hb]

theorem mulN_pow_pow_assoc (i : Nat) (hi : i < 8) (j : Nat) (hj : j < 8) :
    ∀ c, c < 256 → mulN (mulN (2 ^ i) (2 ^ j)) c = mulN (2 ^ i) (mulN (2 ^ j) c) := by
  refine byte_xor_induction
    (fun c => mulN (mulN (2 ^ i) (2 ^ j)) c = mulN (2 ^ i) (mulN (2 ^ j) c)) ?_ ?_
  · show mulN (mulN (2 ^ i) (2 ^ j)) 0 = mulN (2 ^ i) (mulN (2 ^ j) 0)
    rw [mulN_zero_right, mulN_zero_right, mulN_zero_right]
  · intro k hk c hc hIH
    rw [mulN_xor_right, mulN_xor_right, mulN_xor_right,
      mulN_pow_pow_pow_assoc i hi j hj k hk, hIH]

theorem mulN_pow_assoc (i : Nat) (hi : i < 8) :
    ∀ b, b < 256 → ∀ c, c < 256 →
      mulN (mulN (2 ^ i) b) c = mulN (2 ^ i) (mulN b c) := by
  refine byte_xor_induction
    (fun b => ∀ c, c < 256 → mulN (mulN (2 ^ i) b) c = mulN (2 ^ i) (mulN b c)) ?_ ?_
  · intro c _
    rw [mulN_zero_right, mulN_zero_left, mulN_zero_right]
  · intro j hj b hb hIH c hc
    rw [mulN_xor_right, mulN_xor_left, mulN_xor_left, mulN_xor_right,
      mulN_pow_pow_assoc i hi j hj c hc, hIH c hc]

theorem mulN_assoc : ∀ a, a < 256 → ∀ b, b < 256 → ∀ c, c < 256 →
    mulN (mulN a b) c = mulN a (mulN b c) := by
  refine byte_xor_induction
    (fun a => ∀ b, b < 256 → ∀ c, c < 256 → mulN (mulN a b) c = mulN a (mulN b c)) ?_ ?_
  · intro b _ c _
    rw [mulN_zero_left, mulN_zero_left, mulN_zero_left]
  · intro i hi a ha hIH b hb c hc
    rw [mulN_xor_left, mulN_xor_left, mulN_xor_left,
      mulN_pow_assoc i hi b hb c hc, hIH b hb c hc]

theorem mulN_one_right : ∀ a, a < 256 → mulN a 1 = a := by decide

theorem mulN_one_left (a : Nat) (ha : a < 256) : mulN 1 a = a := by
  rw [mulN_comm 1 (by norm_num) a ha, mulN_one_right a ha]

theorem mulN_inv_cancel : ∀ a, a < 256 → a ≠ 0 → mulN a (invN a) = 1 := by decide

theorem invN_lt (a : Nat) : invN a < 256 := by
  unfold invN
  split
  · norm_num
  · exact Nat.mod_lt _ (by norm_num)

/-! ## The bundled field `GF256` -/

/-- A byte viewed as an element of GF(2^8). -/
structure GF256 where
  val : Nat
  lt : val < 256

theorem GF256.ext_val : ∀ {a b : GF256}, a.val = b.val → a = b := by
  intro a b h
  cases a; cases b; cases h; rfl

instance : DecidableEq GF256 := fun a b =>
  if h : a.val = b.val then .isTrue (GF256.ext_val h)
  else .isFalse (fun hh => h (congrArg GF256.val hh))

instance : Zero GF256 := ⟨⟨0, by norm_num⟩⟩
instance : One GF256 := ⟨⟨1, by norm_num⟩⟩
instance : Add GF256 := ⟨fun a b => ⟨a.val ^^^ b.val, xor_lt_256 a.lt b.lt⟩⟩
instance : Mul GF256 := ⟨fun a b => ⟨mulN a.val b.val, mulN_lt a.lt b.val⟩⟩
instance : Neg GF256 := ⟨fun a => a⟩

theorem gf_add_val (a b : GF256) : (a + b).val = a.val ^^^ b.val := rfl
theorem gf_mul_val (a b : GF256) : (a * b).val = mulN a.val b.val := rfl
theorem gf_zero_val : (0 : GF256).val = 0 := rfl
theorem gf_one_val : (1 : GF256).val = 1 := rfl

instance : CommRing GF256 where
  nsmul := nsmulRec
  zsmul := zsmulRec
  add_assoc a b c := GF256.ext_val (by
    simp only [gf_add_val]; exact Nat.xor_assoc _ _ _)
  add_comm a b := GF256.ext_val (by
    simp only [gf_add_val]; exact Nat.xor_comm _ _)
  zero_add a := GF256.ext_val (by
    simp only [gf_add_val, gf_zero_val]; exact Nat.zero_xor _)
  add_zero a := GF256.ext_val (by
    simp only [gf_add_val, gf_zero_val]; exact Nat.xor_zero _)
  neg_add_cancel a := GF256.ext_val (by
    simp only [gf_add_val, gf_zero_val]; exact Nat.xor_self _)
  mul_assoc a b c := GF256.ext_val (by
    simp only [gf_mul_val]
    exact mulN_assoc a.val a.lt b.val b.lt c.val c.lt)
  mul_comm a b := GF256.ext_val (by
    simp only [gf_mul_val]; exact mulN_comm a.val a.lt b.val b.lt)
  one_mul a := GF256.ext_val (by
    simp only [gf_mul_val, gf_one_val]; exact mulN_one_left a.val a.lt)
  mul_one a := GF256.ext_val (by
    simp only [gf_mul_val, gf_one_val]; exact mulN_one_right a.val a.lt)
  left_distrib a b c := GF256.ext_val (by
    simp only [gf_mul_val, gf_add_val]; exact mulN_xor_right _ _ _)
  right_distrib a b c := GF256.ext_val (by
    simp only [gf_mul_val, gf_add_val]; exact mulN_xor_left _ _ _)
  zero_mul a := GF256.ext_val (by
    simp only [gf_mul_val, gf_zero_val]; exact mulN_zero_left _)
  mul_zero a := GF256.ext_val (by
    simp only [gf_mul_val, gf_zero_val]; exact mulN_zero_right _)

theorem gf_neg_eq (a : GF256) : -a = a := rfl

instance : Field GF256 where
  inv a := ⟨invN a.val, invN_lt a.val⟩
  exists_pair_ne := ⟨0, 1, fun h => by
    have h2 := congrArg GF256.val h
    rw [gf_zero_val, gf_one_val] at h2
    exact Nat.zero_ne_one h2⟩
  mul_inv_cancel a ha := GF256.ext_val (by
    simp only [gf_mul_val]
    refine mulN_inv_cancel a.val a.lt (fun hv => ha (GF256.ext_val ?_))
    rw [hv]; rfl)
  inv_zero := GF256.ext_val rfl
  nnqsmul := _
  nnqsmul_def := fun _ _ => rfl
  qsmul := _
  qsmul_def := fun _ _ => rfl

theorem gf_inv_val (a : GF256) : (a⁻¹).val = invN a.val := rfl

theorem gf_sub_eq_add (a b : GF256) : a - b = a + b := by
  rw [sub_eq_add_neg, gf_neg_eq]

theorem gf_char_zero_sub (b : GF256) : (0 : GF256) - b = b := by
  rw [gf_sub_eq_add, zero_add]

/-- Decidable equality for `Except`, used to evaluate results on concrete
inputs. -/
instance {e a : Type} [DecidableEq e] [DecidableEq a] : DecidableEq (Except e a) :=
  fun x y =>
    match x, y with
    | .ok u, .ok v =>
      if h : u = v then .isTrue (by rw [h]) else .isFalse (fun hh => h (by cases hh; rfl))
    | .error u, .error v =>
      if h : u = v then .isTrue (by rw [h]) else .isFalse (fun hh => h (by cases hh; rfl))
    | .ok _, .error _ => .isFalse (fun hh => Except.noConfusion hh)
    | .error _, .ok _ => .isFalse (fun hh => Except.noConfusion hh)

/-! ## Shamir secret sharing

The `split`/`combine` cores of the external `shamir-secret-sharing` library are
not part of this repository. Modelled from the spec: byte-wise Shamir over a
finite field (GF(2^8)); `split` evaluates, for every byte position, a random
polynomial with the secret byte as constant term at the 1-indexed share
positions, each share carrying its position as its first byte; `combine` is
polynomial interpolation over the field at x = 0. Randomness is passed
explicitly as the coefficient function `coeffs`.
-/

/-- Horner evaluation of the polynomial whose coefficient list is `cs`
(constant coefficient first). -/
def evalPoly (cs : List GF256) (x : GF256) : GF256 :=
  cs.foldr (fun c acc => c + x * acc) 0

/-- The byte `n % 256` as a field element. -/
def gfOfNat (n : Nat) : GF256 := ⟨n % 256, Nat.mod_lt _ (by norm_num)⟩

/-- Lagrange interpolation at x = 0 of the `n` points `(x j, y j)`. -/
def lagrangeSum (n : Nat) (x y : Nat → GF256) : GF256 :=
  ∑ j : Fin n, y j.val * ∏ m ∈ Finset.univ.erase j, x m.val * (x j.val + x m.val)⁻¹

/-- Modelled from the spec: the `combine` of the external shamir-secret-sharing
library interpolates the given (position, value) points at x = 0. -/
def lagrangeAtZero (pts : List (GF256 × GF256)) : GF256 :=
  lagrangeSum pts.length (fun j => (pts.getD j (0, 0)).1) (fun j => (pts.getD j (0, 0)).2)

/-- Modelled from the spec: one share of the external library's `split`: the
1-indexed position byte `x`, followed by, for every byte position `t` of the
secret, the evaluation at `x` of the polynomial whose constant coefficient is
the secret byte and whose `K - 1` higher coefficients are random. -/
def shareBytes (secret : List GF256) (coeffs : Nat → Nat → GF256) (K : Nat)
    (x : GF256) : List GF256 :=
  x :: (List.range secret.length).map (fun t =>
    evalPoly (secret.getD t 0 :: (List.range (K - 1)).map (coeffs t)) x)

/-- Modelled from the spec: the external library's `split` produces `N` shares
at the distinct nonzero positions 1..N. -/
def splitCore (secret : List GF256) (K N : Nat) (coeffs : Nat → Nat → GF256) :
    List (List GF256) :=
  (List.range N).map (fun i => shareBytes secret coeffs K (gfOfNat (i + 1)))

/-- Modelled from the spec: the external library's `combine` interpolates each
byte position of the given shares at x = 0 (first byte of a share is its
position, the rest its values). -/
def combineCore (shares : List (List GF256)) : List GF256 :=
  match shares with
  | [] => []
  | s₀ :: _ =>
    (List.range (s₀.length - 1)).map (fun t =>
      lagrangeAtZero (shares.map (fun sh => (sh.headD 0, sh.tail.getD t 0))))

/-- Result record of `ShamirService.splitSecret` (`SplitResult` in
`src/lib/recovery/types`). -/
structure SplitResultL where
  shares : List (List GF256)
  threshold : Nat
  totalShares : Nat
deriving DecidableEq

def MIN_THRESHOLD_S : Nat := 2
def MAX_SHARES_S : Nat := 255

/-- Translated from `ShamirService.validateSplitParams`
(src/lib/recovery/ShamirService.ts lines 184-206); `some` is a thrown error. -/
def validateSplitParams (secret : List GF256) (threshold totalShares : Nat) :
    Option String :=
  if secret.length = 0 then some "Secret cannot be empty"
  else if threshold < MIN_THRESHOLD_S then some "Threshold must be at least 2"
  else if totalShares > MAX_SHARES_S then some "Cannot create more than 255 shares"
  else if threshold > totalShares then some "Threshold cannot exceed total shares"
  else none

/-- Translated from `ShamirService.splitSecret` (lines 33-69): validate, then
delegate to the library split. -/
def splitSecret (secret : List GF256) (threshold totalShares : Nat)
    (coeffs : Nat → Nat → GF256) : Except String SplitResultL :=
  match validateSplitParams secret threshold totalShares with
  | some e => .error e
  | none => .ok ⟨splitCore secret threshold totalShares coeffs, threshold, totalShares⟩

/-- Translated from `ShamirService.isValidShare` (lines 129-146): at least two
bytes, and the first byte (the 1-indexed position) in range. -/
def isValidShare (share : List GF256) : Bool :=
  decide (2 ≤ share.length) && decide (1 ≤ (share.headD 0).val)
    && decide ((share.headD 0).val ≤ MAX_SHARES_S)

/-- Translated from `ShamirService.combineShares` (lines 77-117): reject empty
input, fewer than two shares, or any malformed share; then delegate to the
library combine. -/
def combineShares (shares : List (List GF256)) : Except String (List GF256) :=
  if shares.length = 0 then .error "No shares provided for reconstruction"
  else if shares.length < MIN_THRESHOLD_S then .error "At least 2 shares required"
  else if shares.any (fun s => !(isValidShare s)) then .error "Invalid share format"
  else .ok (combineCore shares)

/-! ## Correctness of interpolation at x = 0 -/

/-- The Mathlib polynomial with coefficient list `cs` (constant first). -/
noncomputable def ofPolyList (cs : List GF256) : Polynomial GF256 :=
  cs.foldr (fun c acc => Polynomial.C c + Polynomial.X * acc) 0

theorem evalPoly_eq_eval (cs : List GF256) (x : GF256) :
    evalPoly cs x = (ofPolyList cs).eval x := by
  induction cs with
  | nil => simp [evalPoly, ofPolyList]
  | cons c cs ih =>
    simp only [evalPoly, ofPolyList, List.foldr_cons] at ih ⊢
    rw [Polynomial.eval_add, Polynomial.eval_C, Polynomial.eval_mul,
      Polynomial.eval_X, ih]

theorem ofPolyList_coeff_zero (c : GF256) (cs : List GF256) :
    (ofPolyList (c :: cs)).coeff 0 = c := by
  show (Polynomial.C c + Polynomial.X * ofPolyList cs).coeff 0 = c
  rw [Polynomial.coeff_add, Polynomial.coeff_C_zero, Polynomial.coeff_X_mul_zero,
    add_zero]

theorem ofPolyList_coeff_ge (cs : List GF256) :
    ∀ k, cs.length ≤ k → (ofPolyList cs).coeff k = 0 := by
  induction cs with
  | nil => intro k _; simp [ofPolyList]
  | cons c cs ih =>
    intro k hk
    cases k with
    | zero => simp at hk
    | succ k =>
      simp only [ofPolyList, List.foldr_cons] at ih ⊢
      rw [Polynomial.coeff_add, Polynomial.coeff_X_mul, Polynomial.coeff_C]
      have hk2 : cs.length ≤ k := by simpa using hk
      rw [ih k hk2]
      simp

theorem ofPolyList_degree_lt (cs : List GF256) :
    (ofPolyList cs).degree < (cs.length : WithBot ℕ) := by
  rw [Polynomial.degree_lt_iff_coeff_zero]
  intro m hm
  exact ofPolyList_coeff_ge cs m (by exact_mod_cast hm)

theorem lagrangeSum_eval (n : Nat) (x : Nat → GF256)
    (hinj : ∀ i j, i < n → j < n → x i = x j → i = j)
    (p : Polynomial GF256) (hdeg : p.degree < (n : WithBot ℕ)) :
    lagrangeSum n x (fun j => p.eval (x j)) = p.coeff 0 := by
  classical
  have hv : Function.Injective (fun i : Fin n => x i.val) := by
    intro i j h
    exact Fin.ext (hinj i.val j.val i.isLt j.isLt h)
  have hdeg2 : p.degree < ((Finset.univ : Finset (Fin n)).card : WithBot ℕ) := by
    rw [Finset.card_univ, Fintype.card_fin]
    exact hdeg
  have hp : p = Lagrange.interpolate Finset.univ (fun i : Fin n => x i.val)
      (fun i => p.eval (x i.val)) :=
    Lagrange.eq_interpolate hv.injOn hdeg2
  have hstep : lagrangeSum n x (fun j => p.eval (x j))
      = Polynomial.eval 0 (Lagrange.interpolate Finset.univ (fun i : Fin n => x i.val)
          (fun i => p.eval (x i.val))) := by
    rw [Lagrange.interpolate_apply, Polynomial.eval_finset_sum]
    unfold lagrangeSum
    apply Finset.sum_congr rfl
    intro j _
    rw [Polynomial.eval_mul, Polynomial.eval_C]
    congr 1
    show (∏ m ∈ Finset.univ.erase j, x m.val * (x j.val + x m.val)⁻¹)
        = Polynomial.eval 0 (Lagrange.basis Finset.univ (fun i : Fin n => x i.val) j)
    rw [Lagrange.basis, Polynomial.eval_prod]
    apply Finset.prod_congr rfl
    intro m _
    rw [Lagrange.basisDivisor, Polynomial.eval_mul, Polynomial.eval_C,
      Polynomial.eval_sub, Polynomial.eval_X, Polynomial.eval_C]
    rw [gf_sub_eq_add, gf_sub_eq_add, zero_add]
    exact mul_comm _ _
  rw [hstep, ← hp, Polynomial.coeff_zero_eq_eval_zero]

theorem lagrangeSum_congr (n : Nat) (x x' y y' : Nat → GF256)
    (hx : ∀ j, j < n → x j = x' j) (hy : ∀ j, j < n → y j = y' j) :
    lagrangeSum n x y = lagrangeSum n x' y' := by
  unfold lagrangeSum
  apply Finset.sum_congr rfl
  intro j _
  rw [hy j.val j.isLt]
  congr 1
  apply Finset.prod_congr rfl
  intro m _
  rw [hx m.val m.isLt, hx j.val j.isLt]

theorem lagrangeAtZero_map (xs : List GF256) (f : GF256 → GF256) :
    lagrangeAtZero (xs.map (fun v => (v, f v)))
      = lagrangeSum xs.length (fun j => xs.getD j 0) (fun j => f (xs.getD j 0)) := by
  unfold lagrangeAtZero
  rw [List.length_map]
  apply lagrangeSum_congr
  · intro j hj
    rw [List.getD_eq_getElem _ _ (by rw [List.length_map]; exact hj),
      List.getElem_map, List.getD_eq_getElem _ _ hj]
  · intro j hj
    rw [List.getD_eq_getElem _ _ (by rw [List.length_map]; exact hj),
      List.getElem_map, List.getD_eq_getElem _ _ hj]

theorem getD_inj_of_nodup (xs : List GF256) (hnd : xs.Nodup) :
    ∀ i j, i < xs.length → j < xs.length → xs.getD i 0 = xs.getD j 0 → i = j := by
  intro i j hi hj h
  rw [List.getD_eq_getElem _ _ hi, List.getD_eq_getElem _ _ hj] at h
  exact (List.Nodup.getElem_inj_iff hnd).mp h

theorem lagrangeAtZero_map_eval (xs : List GF256) (hnd : xs.Nodup)
    (p : Polynomial GF256) (hdeg : p.degree < (xs.length : WithBot ℕ)) :
    lagrangeAtZero (xs.map (fun v => (v, p.eval v))) = p.coeff 0 := by
  rw [lagrangeAtZero_map]
  exact lagrangeSum_eval xs.length (fun j => xs.getD j 0)
    (getD_inj_of_nodup xs hnd) p hdeg

theorem shareBytes_length (secret : List GF256) (coeffs : Nat → Nat → GF256)
    (K : Nat) (x : GF256) :
    (shareBytes secret coeffs K x).length = secret.length + 1 := by
  simp [shareBytes]

theorem splitCore_length (secret : List GF256) (K N : Nat)
    (coeffs : Nat → Nat → GF256) : (splitCore secret K N coeffs).length = N := by
  simp [splitCore]

theorem splitCore_getD (secret : List GF256) (K N : Nat)
    (coeffs : Nat → Nat → GF256) (i : Nat) (hi : i < N) :
    (splitCore secret K N coeffs).getD i []
      = shareBytes secret coeffs K (gfOfNat (i + 1)) := by
  unfold splitCore
  rw [List.getD_eq_getElem _ _ (by simpa using hi), List.getElem_map,
    List.getElem_range]

theorem gfOfNat_inj_on_fin (N : Nat) (hN : N ≤ 255) :
    Function.Injective (fun i : Fin N => gfOfNat (i.val + 1)) := by
  intro i j h
  have hv := congrArg GF256.val h
  simp only [gfOfNat] at hv
  have hi : i.val + 1 < 256 := by have := i.isLt; omega
  have hj : j.val + 1 < 256 := by have := j.isLt; omega
  rw [Nat.mod_eq_of_lt hi, Nat.mod_eq_of_lt hj] at hv
  exact Fin.ext (by omega)

/-- Any `K` distinct shares out of `splitCore secret K N` recombine to the
secret: the heart of claim C1. -/
theorem combineCore_splitCore (secret : List GF256) (hsec : secret ≠ [])
    (K N : Nat) (hK2 : 2 ≤ K) (hKN : K ≤ N) (hN : N ≤ 255)
    (coeffs : Nat → Nat → GF256) (sel : List (Fin N)) (hnd : sel.Nodup)
    (hlen : sel.length = K) :
    combineCore (sel.map (fun i => (splitCore secret K N coeffs).getD i.val []))
      = secret := by
  have hsel : sel.map (fun i => (splitCore secret K N coeffs).getD i.val [])
      = sel.map (fun i => shareBytes secret coeffs K (gfOfNat (i.val + 1))) :=
    List.map_congr_left (fun i _ => splitCore_getD secret K N coeffs i.val i.isLt)
  rw [hsel]
  rcases hselcons : sel with _ | ⟨j₀, sel'⟩
  · rw [hselcons] at hlen; simp at hlen; omega
  rw [← hselcons]
  have hcons : sel.map (fun i => shareBytes secret coeffs K (gfOfNat (i.val + 1)))
      = shareBytes secret coeffs K (gfOfNat (j₀.val + 1))
        :: sel'.map (fun i => shareBytes secret coeffs K (gfOfNat (i.val + 1))) := by
    rw [hselcons]; rfl
  rw [hcons]
  show (List.range ((shareBytes secret coeffs K (gfOfNat (j₀.val + 1))).length - 1)).map _
      = secret
  rw [shareBytes_length, Nat.add_sub_cancel, ← hcons]
  apply List.ext_getElem (by simp)
  intro t h₁ h₂
  rw [List.getElem_map, List.getElem_range]
  have ht : t < secret.length := by simpa using h₂
  -- the points of byte position t
  have hpts : (sel.map (fun i => shareBytes secret coeffs K (gfOfNat (i.val + 1)))).map
        (fun sh => (sh.headD 0, sh.tail.getD t 0))
      = (sel.map (fun i => gfOfNat (i.val + 1))).map
          (fun v => (v, (ofPolyList (secret.getD t 0
            :: (List.range (K - 1)).map (coeffs t))).eval v)) := by
    rw [List.map_map, List.map_map]
    apply List.map_congr_left
    intro i _
    show ((shareBytes secret coeffs K (gfOfNat (i.val + 1))).headD 0,
        (shareBytes secret coeffs K (gfOfNat (i.val + 1))).tail.getD t 0) = _
    unfold shareBytes
    simp only [List.headD_cons, List.tail_cons]
    rw [List.getD_eq_getElem _ _ (by simpa using ht), List.getElem_map,
      List.getElem_range, evalPoly_eq_eval]
    rfl
  rw [hpts]
  have hnd2 : (sel.map (fun i => gfOfNat (i.val + 1))).Nodup :=
    List.Nodup.map (gfOfNat_inj_on_fin N hN) hnd
  have hdeg : (ofPolyList (secret.getD t 0
        :: (List.range (K - 1)).map (coeffs t))).degree
      < ((sel.map (fun i => gfOfNat (i.val + 1))).length : WithBot ℕ) := by
    have h1 := ofPolyList_degree_lt (secret.getD t 0
      :: (List.range (K - 1)).map (coeffs t))
    have h2 : (secret.getD t 0 :: (List.range (K - 1)).map (coeffs t)).length
        = (sel.map (fun i => gfOfNat (i.val + 1))).length := by
      simp [hlen]
      omega
    rwa [h2] at h1
  rw [lagrangeAtZero_map_eval _ hnd2 _ hdeg, ofPolyList_coeff_zero,
    List.getD_eq_getElem _ _ ht]

theorem isValidShare_shareBytes (secret : List GF256) (hsec : secret ≠ [])
    (coeffs : Nat → Nat → GF256) (K : Nat) (i : Nat) (hi1 : 1 ≤ i + 1)
    (hi255 : i + 1 ≤ 255) :
    isValidShare (shareBytes secret coeffs K (gfOfNat (i + 1))) = true := by
  unfold isValidShare
  have hlen : 2 ≤ (shareBytes secret coeffs K (gfOfNat (i + 1))).length := by
    rw [shareBytes_length]
    have := List.length_pos.mpr hsec
    omega
  have hhead : (shareBytes secret coeffs K (gfOfNat (i + 1))).headD 0
      = gfOfNat (i + 1) := rfl
  rw [hhead]
  have hval : (gfOfNat (i + 1)).val = i + 1 := by
    simp only [gfOfNat]
    exact Nat.mod_eq_of_lt (by omega)
  rw [hval]
  simp only [Bool.and_eq_true, decide_eq_true_eq]
  exact ⟨⟨hlen, by omega⟩, by unfold MAX_SHARES_S; omega⟩

/-- C1. For every non-empty secret and every 2 ≤ K ≤ N ≤ 255, `splitSecret`
yields N shares, and `combineShares` on any K-element subset of them (given as
K distinct share indices) returns exactly the secret. -/
theorem C1_split_combine_roundtrip (secret : List GF256) (hsec : secret ≠ [])
    (K N : Nat) (hK2 : 2 ≤ K) (hKN : K ≤ N) (hN : N ≤ 255)
    (coeffs : Nat → Nat → GF256) (sel : List (Fin N)) (hnd : sel.Nodup)
    (hlen : sel.length = K) :
    ∃ res : SplitResultL,
      splitSecret secret K N coeffs = Except.ok res ∧
      res.shares.length = N ∧
      combineShares (sel.map (fun i => res.shares.getD i.val []))
        = Except.ok secret := by
  have hval : validateSplitParams secret K N = none := by
    unfold validateSplitParams MIN_THRESHOLD_S MAX_SHARES_S
    have h1 : ¬ (secret.length = 0) := by
      simpa [List.length_eq_zero] using hsec
    rw [if_neg h1, if_neg (by omega), if_neg (by omega), if_neg (by omega)]
  refine ⟨⟨splitCore secret K N coeffs, K, N⟩, ?_, ?_, ?_⟩
  · unfold splitSecret
    rw [hval]
  · exact splitCore_length secret K N coeffs
  · show combineShares
        (sel.map (fun i => (splitCore secret K N coeffs).getD i.val [])) = _
    have hvalid : (sel.map (fun i => (splitCore secret K N coeffs).getD i.val [])).any
        (fun s => !(isValidShare s)) = false := by
      rw [List.any_eq_false]
      intro s hs
      obtain ⟨i, _, rfl⟩ := List.mem_map.mp hs
      rw [splitCore_getD secret K N coeffs i.val i.isLt]
      rw [isValidShare_shareBytes secret hsec coeffs K i.val (by omega)
        (by have := i.isLt; omega)]
      simp
    unfold combineShares
    have hlensel : (sel.map
        (fun i => (splitCore secret K N coeffs).getD i.val [])).length = K := by
      rw [List.length_map, hlen]
    rw [hlensel, hvalid]
    rw [if_neg (by omega), if_neg (by unfold MIN_THRESHOLD_S; omega), if_neg (by simp)]
    exact congrArg Except.ok
      (combineCore_splitCore secret hsec K N hK2 hKN hN coeffs sel hnd hlen)

/-- Witness for C1: a concrete 2-of-3 split of the secret [42, 7], recombined
from shares 3 and 1. -/
theorem C1_witness :
    ([gfOfNat 42, gfOfNat 7] : List GF256) ≠ [] ∧ 2 ≤ 2 ∧ (2 : Nat) ≤ 3 ∧
    (3 : Nat) ≤ 255 ∧ ([(2 : Fin 3), 0] : List (Fin 3)).Nodup ∧
    ([(2 : Fin 3), 0] : List (Fin 3)).length = 2 ∧
    (∃ res : SplitResultL,
      splitSecret [gfOfNat 42, gfOfNat 7] 2 3 (fun _ _ => gfOfNat 5)
        = Except.ok res ∧
      res.shares.length = 3 ∧
      combineShares (([(2 : Fin 3), 0] : List (Fin 3)).map
        (fun i => res.shares.getD i.val []))
        = Except.ok [gfOfNat 42, gfOfNat 7]) :=
  ⟨by decide, by decide, by decide, by decide, by decide, by decide,
    C1_split_combine_roundtrip [gfOfNat 42, gfOfNat 7] (by decide) 2 3
      (by decide) (by decide) (by decide) (fun _ _ => gfOfNat 5)
      [(2 : Fin 3), 0] (by decide) (by decide)⟩

/-- C8. `splitSecret` fails exactly when the secret is empty, K < 2, N > 255,
or K > N; `combineShares` fails when given fewer than 2 shares or any
malformed share (shorter than 2 bytes, or first byte outside 1..255). -/
theorem C8_validation_conditions :
    (∀ (secret : List GF256) (K N : Nat) (coeffs : Nat → Nat → GF256),
      (∃ e, splitSecret secret K N coeffs = Except.error e)
        ↔ (secret = [] ∨ K < 2 ∨ 255 < N ∨ N < K)) ∧
    (∀ shares : List (List GF256), shares.length < 2 →
      ∃ e, combineShares shares = Except.error e) ∧
    (∀ (shares : List (List GF256)) (s : List GF256), s ∈ shares →
      (s.length < 2 ∨ (s.headD 0).val < 1 ∨ 255 < (s.headD 0).val) →
      ∃ e, combineShares shares = Except.error e) := by
  refine ⟨?_, ?_, ?_⟩
  · intro secret K N coeffs
    unfold splitSecret validateSplitParams MIN_THRESHOLD_S MAX_SHARES_S
    constructor
    · intro ⟨e, he⟩
      by_cases h1 : secret.length = 0
      · exact Or.inl (List.length_eq_zero.mp h1)
      rw [if_neg h1] at he
      by_cases h2 : K < 2
      · exact Or.inr (Or.inl h2)
      rw [if_neg h2] at he
      by_cases h3 : N > 255
      · exact Or.inr (Or.inr (Or.inl h3))
      rw [if_neg h3] at he
      by_cases h4 : K > N
      · exact Or.inr (Or.inr (Or.inr h4))
      rw [if_neg h4] at he
      exact absurd he (by simp)
    · intro h
      by_cases h1 : secret.length = 0
      · rw [if_pos h1]; exact ⟨_, rfl⟩
      rw [if_neg h1]
      have hsec : ¬ (secret = []) := fun hh => h1 (by rw [hh]; rfl)
      by_cases h2 : K < 2
      · rw [if_pos h2]; exact ⟨_, rfl⟩
      rw [if_neg h2]
      by_cases h3 : N > 255
      · rw [if_pos h3]; exact ⟨_, rfl⟩
      rw [if_neg h3]
      by_cases h4 : K > N
      · rw [if_pos h4]; exact ⟨_, rfl⟩
      rcases h with h | h | h | h
      · exact absurd h hsec
      all_goals omega
  · intro shares hlen
    unfold combineShares MIN_THRESHOLD_S
    by_cases h0 : shares.length = 0
    · rw [if_pos h0]; exact ⟨_, rfl⟩
    · rw [if_neg h0, if_pos hlen]; exact ⟨_, rfl⟩
  · intro shares s hs hmal
    unfold combineShares MIN_THRESHOLD_S
    by_cases h0 : shares.length = 0
    · rw [if_pos h0]; exact ⟨_, rfl⟩
    rw [if_neg h0]
    by_cases h1 : shares.length < 2
    · rw [if_pos h1]; exact ⟨_, rfl⟩
    rw [if_neg h1]
    have hbad : isValidShare s = false := by
      unfold isValidShare MAX_SHARES_S
      simp only [Bool.and_eq_true, decide_eq_true_eq, Bool.not_eq_true,
        ← Bool.not_eq_true]
      intro hcon
      rcases hcon with ⟨⟨hl, hv1⟩, hv2⟩
      rcases hmal with h | h | h <;> omega
    have hany : shares.any (fun sh => !(isValidShare sh)) = true := by
      rw [List.any_eq_true]
      exact ⟨s, hs, by rw [hbad]; rfl⟩
    rw [hany]
    exact ⟨_, by rw [if_pos rfl]⟩

/-- Witness for C8: one share is too few for `combineShares`; a malformed share
(index byte 0) makes `combineShares` fail; an empty secret makes `splitSecret`
fail. -/
theorem C8_witness :
    ([[gfOfNat 1, gfOfNat 2]] : List (List GF256)).length < 2 ∧
    (∃ e, combineShares [[gfOfNat 1, gfOfNat 2]] = Except.error e) ∧
    (([gfOfNat 0, gfOfNat 9] : List GF256) ∈
      ([[gfOfNat 0, gfOfNat 9], [gfOfNat 1, gfOfNat 2]] : List (List GF256))) ∧
    (∃ e, combineShares [[gfOfNat 0, gfOfNat 9], [gfOfNat 1, gfOfNat 2]]
      = Except.error e) ∧
    (∃ e, splitSecret [] 2 3 (fun _ _ => 0) = Except.error e) :=
  ⟨by decide,
    C8_validation_conditions.2.1 [[gfOfNat 1, gfOfNat 2]] (by decide),
    by decide,
    C8_validation_conditions.2.2 [[gfOfNat 0, gfOfNat 9], [gfOfNat 1, gfOfNat 2]]
      [gfOfNat 0, gfOfNat 9] (by decide) (by decide),
    (C8_validation_conditions.1 [] 2 3 (fun _ _ => 0)).mpr (by decide)⟩

/-! ## On-ledger guardian registry

Translated from `src/packages/contracts/src/SovSealRecovery.sol`. Addresses are
`Nat` with 0 as the zero address; `block.timestamp` is an explicit `now`
argument; a revert is `Except.error` and leaves the state unchanged.
-/

abbrev Addr := Nat

structure GuardianC where
  addr : Addr
  weight : Nat
  isActive : Bool
deriving DecidableEq

structure RecoveryRequestC where
  owner : Addr
  newOwner : Addr
  threshold : Nat
  approvalWeight : Nat
  initiatedAt : Nat
  executeAfter : Nat
  executed : Bool
  cancelled : Bool
  hasApproved : Addr → Bool

/-- The all-zero mapping default of a Solidity `RecoveryRequest`. -/
def emptyRequest : RecoveryRequestC :=
  ⟨0, 0, 0, 0, 0, 0, false, false, fun _ => false⟩

structure ContractState where
  guardians : Addr → List GuardianC
  thresholds : Addr → Nat
  recoveryRequests : Nat → RecoveryRequestC
  recoveryCount : Nat
  activeRecovery : Addr → Nat

/-- Freshly deployed contract: all mappings at their zero defaults. -/
def initialContractState : ContractState :=
  ⟨fun _ => [], fun _ => 0, fun _ => emptyRequest, 0, fun _ => 0⟩

inductive ContractError
  | NotOwner | NotGuardian | InvalidAddress | InvalidThreshold
  | GuardianAlreadyExists | GuardianNotFound | MaxGuardiansReached
  | NoActiveRecovery | RecoveryAlreadyActive | RecoveryNotReady
  | RecoveryAlreadyApproved | RecoveryAlreadyExecuted | RecoveryAlreadyCancelled
  | TimeLockNotExpired | ThresholdNotMet
deriving DecidableEq

def RECOVERY_DELAY : Nat := 604800
def MIN_THRESHOLD_C : Nat := 2
def MAX_GUARDIANS : Nat := 10

/-- Translated from `_isGuardian`: some entry with this address is active. -/
def isGuardianOf (s : ContractState) (owner guardian : Addr) : Bool :=
  (s.guardians owner).any (fun g => (g.addr == guardian) && g.isActive)

/-- Translated from `_getGuardianWeight`: weight of the first active entry with
this address, 0 if none. -/
def guardianWeight (s : ContractState) (owner guardian : Addr) : Nat :=
  match (s.guardians owner).find? (fun g => (g.addr == guardian) && g.isActive) with
  | some g => g.weight
  | none => 0

/-- Translated from `_getTotalGuardianWeight`: sum of active weights. -/
def totalGuardianWeight (s : ContractState) (owner : Addr) : Nat :=
  (s.guardians owner).foldl (fun t g => if g.isActive then t + g.weight else t) 0

/-- Translated from `getGuardians`: the active guardians, in storage order. -/
def getGuardiansView (s : ContractState) (owner : Addr) : List GuardianC :=
  (s.guardians owner).filter (fun g => g.isActive)

/-- Translated from `addGuardian` (lines 156-179), checks in source order. -/
def addGuardian (s : ContractState) (sender guardian : Addr) (weight : Nat) :
    Except ContractError ContractState :=
  if guardian = 0 then .error .InvalidAddress
  else if guardian = sender then .error .InvalidAddress
  else if MAX_GUARDIANS ≤ (s.guardians sender).length then .error .MaxGuardiansReached
  else if weight = 0 then .error .InvalidThreshold
  else if (s.guardians sender).any (fun g => (g.addr == guardian) && g.isActive) then
    .error .GuardianAlreadyExists
  else .ok { s with guardians := fun o =>
    if o = sender then s.guardians sender ++ [⟨guardian, weight, true⟩]
    else s.guardians o }

/-- The loop of `removeGuardian`: deactivate the first active entry with this
address (the source breaks after the first hit). -/
def deactivateFirst : List GuardianC → Addr → Option (List GuardianC)
  | [], _ => none
  | g :: gs, a =>
    if (g.addr == a) && g.isActive then some ({ g with isActive := false } :: gs)
    else (deactivateFirst gs a).map (fun l => g :: l)

/-- Translated from `removeGuardian` (lines 185-200): soft delete. -/
def removeGuardian (s : ContractState) (sender guardian : Addr) :
    Except ContractError ContractState :=
  match deactivateFirst (s.guardians sender) guardian with
  | none => .error .GuardianNotFound
  | some l => .ok { s with guardians := fun o =>
      if o = sender then l else s.guardians o }

/-- Translated from `setThreshold` (lines 206-215). -/
def setThreshold (s : ContractState) (sender : Addr) (newThreshold : Nat) :
    Except ContractError ContractState :=
  if newThreshold < MIN_THRESHOLD_C then .error .InvalidThreshold
  else if totalGuardianWeight s sender < newThreshold then .error .InvalidThreshold
  else .ok { s with thresholds := fun o =>
    if o = sender then newThreshold else s.thresholds o }

/-- Translated from `initiateRecovery` (lines 254-286); returns the request id
with the new state. -/
def initiateRecovery (s : ContractState) (sender owner newOwner now : Nat) :
    Except ContractError (Nat × ContractState) :=
  if owner = 0 then .error .InvalidAddress
  else if newOwner = 0 then .error .InvalidAddress
  else if owner = newOwner then .error .InvalidAddress
  else if s.activeRecovery owner ≠ 0 then .error .RecoveryAlreadyActive
  else if !(isGuardianOf s owner sender) then .error .NotGuardian
  else if s.thresholds owner < MIN_THRESHOLD_C then .error .InvalidThreshold
  else
    let requestId := s.recoveryCount + 1
    .ok (requestId, { s with
      recoveryCount := requestId
      recoveryRequests := fun r =>
        if r = requestId then
          { owner := owner, newOwner := newOwner, threshold := s.thresholds owner,
            approvalWeight := 0, initiatedAt := now,
            executeAfter := now + RECOVERY_DELAY,
            executed := false, cancelled := false, hasApproved := fun _ => false }
        else s.recoveryRequests r
      activeRecovery := fun o => if o = owner then requestId else s.activeRecovery o })

/-- Translated from `approveRecovery` (lines 292-316). -/
def approveRecovery (s : ContractState) (sender : Addr) (requestId : Nat) :
    Except ContractError ContractState :=
  if (s.recoveryRequests requestId).owner = 0 then .error .NoActiveRecovery
  else if (s.recoveryRequests requestId).executed then .error .RecoveryAlreadyExecuted
  else if (s.recoveryRequests requestId).cancelled then .error .RecoveryAlreadyCancelled
  else if (s.recoveryRequests requestId).hasApproved sender then
    .error .RecoveryAlreadyApproved
  else if !(isGuardianOf s (s.recoveryRequests requestId).owner sender) then
    .error .NotGuardian
  else .ok { s with recoveryRequests := fun r =>
    if r = requestId then
      { s.recoveryRequests requestId with
        hasApproved := fun a =>
          if a = sender then true else (s.recoveryRequests requestId).hasApproved a,
        approvalWeight := (s.recoveryRequests requestId).approvalWeight
          + guardianWeight s (s.recoveryRequests requestId).owner sender }
    else s.recoveryRequests r }

/-- Translated from `executeRecovery` (lines 322-345): time-lock and threshold
checks, then mark executed, clear the active slot, append the old owner's
active guardians to the new owner's list, and copy the threshold. -/
def executeRecovery (s : ContractState) (requestId now : Nat) :
    Except ContractError ContractState :=
  if (s.recoveryRequests requestId).owner = 0 then .error .NoActiveRecovery
  else if (s.recoveryRequests requestId).executed then .error .RecoveryAlreadyExecuted
  else if (s.recoveryRequests requestId).cancelled then .error .RecoveryAlreadyCancelled
  else if now < (s.recoveryRequests requestId).executeAfter then
    .error .TimeLockNotExpired
  else if (s.recoveryRequests requestId).approvalWeight
      < (s.recoveryRequests requestId).threshold then .error .ThresholdNotMet
  else .ok { s with
    recoveryRequests := fun r =>
      if r = requestId then { s.recoveryRequests requestId with executed := true }
      else s.recoveryRequests r
    activeRecovery := fun o =>
      if o = (s.recoveryRequests requestId).owner then 0 else s.activeRecovery o
    guardians := fun o =>
      if o = (s.recoveryRequests requestId).newOwner then
        s.guardians (s.recoveryRequests requestId).newOwner
          ++ (s.guardians (s.recoveryRequests requestId).owner).filter
              (fun g => g.isActive)
      else s.guardians o
    thresholds := fun o =>
      if o = (s.recoveryRequests requestId).newOwner then
        s.thresholds (s.recoveryRequests requestId).owner
      else s.thresholds o }

/-- Translated from `cancelRecovery` (lines 351-367). -/
def cancelRecovery (s : ContractState) (sender : Addr) (requestId : Nat) :
    Except ContractError ContractState :=
  if (s.recoveryRequests requestId).owner = 0 then .error .NoActiveRecovery
  else if (s.recoveryRequests requestId).executed then .error .RecoveryAlreadyExecuted
  else if (s.recoveryRequests requestId).cancelled then .error .RecoveryAlreadyCancelled
  else if sender ≠ (s.recoveryRequests requestId).owner
      ∧ isGuardianOf s (s.recoveryRequests requestId).owner sender = false then
    .error .NotGuardian
  else .ok { s with
    recoveryRequests := fun r =>
      if r = requestId then { s.recoveryRequests requestId with cancelled := true }
      else s.recoveryRequests r
    activeRecovery := fun o =>
      if o = (s.recoveryRequests requestId).owner then 0 else s.activeRecovery o }

/-- One externally-submitted transaction. -/
inductive OpC
  | addGuardian (sender guardian : Addr) (weight : Nat)
  | removeGuardian (sender guardian : Addr)
  | setThreshold (sender : Addr) (k : Nat)
  | initiateRecovery (sender owner newOwner now : Nat)
  | approveRecovery (sender : Addr) (requestId : Nat)
  | executeRecovery (requestId now : Nat)
  | cancelRecovery (sender : Addr) (requestId : Nat)

def runOp (s : ContractState) (op : OpC) : Except ContractError ContractState :=
  match op with
  | .addGuardian sender g w => addGuardian s sender g w
  | .removeGuardian sender g => removeGuardian s sender g
  | .setThreshold sender k => setThreshold s sender k
  | .initiateRecovery sender o n t => (initiateRecovery s sender o n t).map (fun p => p.2)
  | .approveRecovery sender id => approveRecovery s sender id
  | .executeRecovery id t => executeRecovery s id t
  | .cancelRecovery sender id => cancelRecovery s sender id

/-- A transaction either commits its new state or reverts leaving the old one. -/
def stepC (s : ContractState) (op : OpC) : ContractState :=
  match runOp s op with
  | .ok s2 => s2
  | .error _ => s

def execOps (ops : List OpC) : ContractState := ops.foldl stepC initialContractState

/-- States reachable from deployment by any transaction sequence. -/
def ReachableC (s : ContractState) : Prop := ∃ ops : List OpC, s = execOps ops

/-- Inductive invariant of the registry tying requests to active-recovery
slots: fresh ids hold the zero request; real requests have distinct nonzero
parties and are never both executed and cancelled; an owner's nonzero slot
points at their unique active request, and every active request is pointed at
by its owner's slot. -/
def InvC (s : ContractState) : Prop :=
  (∀ id, (s.recoveryRequests id).owner ≠ 0 → 1 ≤ id ∧ id ≤ s.recoveryCount) ∧
  (∀ id, (s.recoveryRequests id).owner ≠ 0 →
    (s.recoveryRequests id).owner ≠ (s.recoveryRequests id).newOwner ∧
    (s.recoveryRequests id).newOwner ≠ 0 ∧
    ¬((s.recoveryRequests id).executed ∧ (s.recoveryRequests id).cancelled)) ∧
  (∀ o, s.activeRecovery o ≠ 0 →
    s.activeRecovery o ≤ s.recoveryCount ∧
    (s.recoveryRequests (s.activeRecovery o)).owner = o ∧
    ¬(s.recoveryRequests (s.activeRecovery o)).executed ∧
    ¬(s.recoveryRequests (s.activeRecovery o)).cancelled) ∧
  (∀ id, (s.recoveryRequests id).owner ≠ 0 →
    ¬(s.recoveryRequests id).executed → ¬(s.recoveryRequests id).cancelled →
    s.activeRecovery ((s.recoveryRequests id).owner) = id)

theorem invC_initial : InvC initialContractState := by
  refine ⟨fun id h => absurd rfl h, fun id h => absurd rfl h,
    fun o h => absurd rfl h, fun id h => absurd rfl h⟩

theorem invC_of_same_recovery (s s2 : ContractState)
    (h1 : s2.recoveryRequests = s.recoveryRequests)
    (h2 : s2.recoveryCount = s.recoveryCount)
    (h3 : s2.activeRecovery = s.activeRecovery) (h : InvC s) : InvC s2 := by
  unfold InvC
  rw [h1, h2, h3]
  exact h

theorem invC_addGuardian (s s2 : ContractState) (sender g : Addr) (w : Nat)
    (h : InvC s) (heq : addGuardian s sender g w = Except.ok s2) : InvC s2 := by
  unfold addGuardian at heq
  split_ifs at heq <;> try exact Except.noConfusion heq
  cases heq
  exact invC_of_same_recovery s _ rfl rfl rfl h

theorem invC_removeGuardian (s s2 : ContractState) (sender g : Addr)
    (h : InvC s) (heq : removeGuardian s sender g = Except.ok s2) : InvC s2 := by
  unfold removeGuardian at heq
  rcases hmatch : deactivateFirst (s.guardians sender) g with _ | l <;>
    rw [hmatch] at heq
  · exact Except.noConfusion heq
  · cases heq
    exact invC_of_same_recovery s _ rfl rfl rfl h

theorem invC_setThreshold (s s2 : ContractState) (sender : Addr) (k : Nat)
    (h : InvC s) (heq : setThreshold s sender k = Except.ok s2) : InvC s2 := by
  unfold setThreshold at heq
  split_ifs at heq <;> try exact Except.noConfusion heq
  cases heq
  exact invC_of_same_recovery s _ rfl rfl rfl h

theorem invC_initiateRecovery (s : ContractState)
    (sender owner newOwner now rid : Nat) (s2 : ContractState) (h : InvC s)
    (heq : initiateRecovery s sender owner newOwner now = Except.ok (rid, s2)) :
    InvC s2 := by
  obtain ⟨h1, h2, h3, h4⟩ := h
  unfold initiateRecovery at heq
  split_ifs at heq with hc1 hc2 hc3 hc4 hc5 hc6 <;> try exact Except.noConfusion heq
  cases heq
  have hslot0 : s.activeRecovery owner = 0 := by
    by_contra hne
    exact hc4 hne
  refine ⟨?_, ?_, ?_, ?_⟩
  · intro id hown
    simp only at hown ⊢
    by_cases hid : id = s.recoveryCount + 1
    · omega
    · rw [if_neg hid] at hown
      have := h1 id hown
      omega
  · intro id hown
    simp only at hown ⊢
    by_cases hid : id = s.recoveryCount + 1
    · rw [if_pos hid] at hown ⊢
      exact ⟨hc3, hc2, by simp⟩
    · rw [if_neg hid] at hown ⊢
      exact h2 id hown
  · intro o hact
    simp only at hact ⊢
    by_cases ho : o = owner
    · rw [if_pos ho] at hact ⊢
      rw [if_pos rfl]
      exact ⟨by omega, ho.symm, by simp, by simp⟩
    · rw [if_neg ho] at hact ⊢
      obtain ⟨hb2, ho2, he2, hk2⟩ := h3 o hact
      have hne : s.activeRecovery o ≠ s.recoveryCount + 1 := by omega
      rw [if_neg hne]
      exact ⟨by omega, ho2, he2, hk2⟩
  · intro id hown hexec hcanc
    simp only at hown hexec hcanc ⊢
    by_cases hid : id = s.recoveryCount + 1
    · rw [if_pos hid] at hown ⊢
      rw [if_pos rfl, hid]
    · rw [if_neg hid] at hown hexec hcanc ⊢
      have hslot := h4 id hown hexec hcanc
      have hown_ne : (s.recoveryRequests id).owner ≠ owner := by
        intro hsame
        rw [hsame] at hslot
        rw [hslot0] at hslot
        have := h1 id hown
        omega
      rw [if_neg hown_ne]
      exact hslot

/-- Updating a real request without touching its parties or terminal flags
preserves the invariant (covers `approveRecovery`). -/
theorem invC_update_request (s : ContractState) (requestId : Nat)
    (mod : RecoveryRequestC)
    (hown : mod.owner = (s.recoveryRequests requestId).owner)
    (hnew : mod.newOwner = (s.recoveryRequests requestId).newOwner)
    (hexe : mod.executed = (s.recoveryRequests requestId).executed)
    (hcan : mod.cancelled = (s.recoveryRequests requestId).cancelled)
    (hreal : (s.recoveryRequests requestId).owner ≠ 0)
    (h : InvC s) :
    InvC { s with recoveryRequests := fun r =>
      if r = requestId then mod else s.recoveryRequests r } := by
  obtain ⟨h1, h2, h3, h4⟩ := h
  refine ⟨?_, ?_, ?_, ?_⟩
  · intro id hid
    simp only at hid ⊢
    by_cases he : id = requestId
    · subst he
      exact h1 id hreal
    · rw [if_neg he] at hid
      exact h1 id hid
  · intro id hid
    simp only at hid ⊢
    by_cases he : id = requestId
    · subst he
      rw [if_pos rfl] at hid ⊢
      rw [hown, hnew, hexe, hcan]
      exact h2 id hreal
    · rw [if_neg he] at hid ⊢
      exact h2 id hid
  · intro o ho
    simp only at ho ⊢
    obtain ⟨hb, hoo, hoe, hoc⟩ := h3 o ho
    by_cases he : s.activeRecovery o = requestId
    · rw [he] at hb hoo hoe hoc
      rw [he, if_pos rfl]
      exact ⟨hb, by rw [hown]; exact hoo, by rw [hexe]; exact hoe,
        by rw [hcan]; exact hoc⟩
    · rw [if_neg he]
      exact ⟨hb, hoo, hoe, hoc⟩
  · intro id hid hexec hcanc
    simp only at hid hexec hcanc ⊢
    by_cases he : id = requestId
    · subst he
      rw [if_pos rfl] at hid hexec hcanc ⊢
      rw [hown] at hid ⊢
      rw [hexe] at hexec
      rw [hcan] at hcanc
      exact h4 id hreal hexec hcanc
    · rw [if_neg he] at hid hexec hcanc ⊢
      exact h4 id hid hexec hcanc

theorem invC_approveRecovery (s s2 : ContractState) (sender : Addr)
    (requestId : Nat) (h : InvC s)
    (heq : approveRecovery s sender requestId = Except.ok s2) : InvC s2 := by
  unfold approveRecovery at heq
  split_ifs at heq with hc1 hc2 hc3 hc4 hc5 <;> try exact Except.noConfusion heq
  cases heq
  exact invC_update_request s requestId _ rfl rfl rfl rfl hc1 h

/-- Marking a real active request terminal while clearing its owner's slot
preserves the invariant, for any new guardian and threshold maps (covers
`executeRecovery` and `cancelRecovery`). -/
theorem invC_terminalize (s : ContractState) (requestId : Nat)
    (mod : RecoveryRequestC) (gs : Addr → List GuardianC) (ts : Addr → Nat)
    (hown : mod.owner = (s.recoveryRequests requestId).owner)
    (hnew : mod.newOwner = (s.recoveryRequests requestId).newOwner)
    (hflags : ¬(mod.executed ∧ mod.cancelled))
    (hterm : mod.executed = true ∨ mod.cancelled = true)
    (hreal : (s.recoveryRequests requestId).owner ≠ 0)
    (hwase : ¬(s.recoveryRequests requestId).executed)
    (hwasc : ¬(s.recoveryRequests requestId).cancelled)
    (h : InvC s) :
    InvC { guardians := gs, thresholds := ts
           recoveryRequests := fun r =>
             if r = requestId then mod else s.recoveryRequests r
           recoveryCount := s.recoveryCount
           activeRecovery := fun o =>
             if o = (s.recoveryRequests requestId).owner then 0
             else s.activeRecovery o } := by
  obtain ⟨h1, h2, h3, h4⟩ := h
  refine ⟨?_, ?_, ?_, ?_⟩
  · intro id hid
    simp only at hid ⊢
    by_cases he : id = requestId
    · subst he
      exact h1 id hreal
    · rw [if_neg he] at hid
      exact h1 id hid
  · intro id hid
    simp only at hid ⊢
    by_cases he : id = requestId
    · subst he
      rw [if_pos rfl] at hid ⊢
      rw [hown, hnew]
      obtain ⟨p1, p2, _⟩ := h2 id hreal
      exact ⟨p1, p2, hflags⟩
    · rw [if_neg he] at hid ⊢
      exact h2 id hid
  · intro o ho
    simp only at ho ⊢
    by_cases hoo : o = (s.recoveryRequests requestId).owner
    · rw [if_pos hoo] at ho
      exact absurd rfl ho
    · rw [if_neg hoo] at ho ⊢
      obtain ⟨hb, ha, he2, hc2⟩ := h3 o ho
      have hne : s.activeRecovery o ≠ requestId := by
        intro hsame
        rw [hsame] at ha
        exact hoo ha.symm
      rw [if_neg hne]
      exact ⟨hb, ha, he2, hc2⟩
  · intro id hid hexec hcanc
    simp only at hid hexec hcanc ⊢
    by_cases he : id = requestId
    · subst he
      rw [if_pos rfl] at hid hexec hcanc
      rcases hterm with ht | ht
      · exact absurd ht hexec
      · exact absurd ht hcanc
    · rw [if_neg he] at hid hexec hcanc ⊢
      have hslot := h4 id hid hexec hcanc
      have hne : (s.recoveryRequests id).owner
          ≠ (s.recoveryRequests requestId).owner := by
        intro hsame
        have hslot2 := h4 requestId hreal hwase hwasc
        rw [hsame] at hslot
        rw [hslot] at hslot2
        exact he hslot2
      rw [if_neg hne]
      exact hslot

theorem invC_executeRecovery (s s2 : ContractState) (requestId now : Nat)
    (h : InvC s) (heq : executeRecovery s requestId now = Except.ok s2) :
    InvC s2 := by
  unfold executeRecovery at heq
  split_ifs at heq with hc1 hc2 hc3 hc4 hc5 <;> try exact Except.noConfusion heq
  cases heq
  exact invC_terminalize s requestId _ _ _ rfl rfl
    (by simp [hc3]) (by simp) hc1 hc2 hc3 h

theorem invC_cancelRecovery (s s2 : ContractState) (sender : Addr)
    (requestId : Nat) (h : InvC s)
    (heq : cancelRecovery s sender requestId = Except.ok s2) : InvC s2 := by
  unfold cancelRecovery at heq
  split_ifs at heq with hc1 hc2 hc3 hc4 <;> try exact Except.noConfusion heq
  cases heq
  exact invC_terminalize s requestId _ _ _ rfl rfl
    (by simp [hc2]) (by simp) hc1 hc2 hc3 h

theorem invC_runOp (s s2 : ContractState) (op : OpC) (h : InvC s)
    (heq : runOp s op = Except.ok s2) : InvC s2 := by
  cases op with
  | addGuardian sender g w => exact invC_addGuardian s s2 sender g w h heq
  | removeGuardian sender g => exact invC_removeGuardian s s2 sender g h heq
  | setThreshold sender k => exact invC_setThreshold s s2 sender k h heq
  | initiateRecovery sender o n t =>
    simp only [runOp] at heq
    rcases hres : initiateRecovery s sender o n t with e | p <;> rw [hres] at heq
    · exact Except.noConfusion heq
    · cases heq
      exact invC_initiateRecovery s sender o n t p.1 p.2 h (by rw [hres])
  | approveRecovery sender id => exact invC_approveRecovery s s2 sender id h heq
  | executeRecovery id t => exact invC_executeRecovery s s2 id t h heq
  | cancelRecovery sender id => exact invC_cancelRecovery s s2 sender id h heq

theorem invC_stepC (s : ContractState) (op : OpC) (h : InvC s) :
    InvC (stepC s op) := by
  unfold stepC
  rcases hres : runOp s op with e | s2
  · exact h
  · exact invC_runOp s s2 op h hres

/-- Every reachable registry state satisfies the invariant. -/
theorem invC_reachable (s : ContractState) (hr : ReachableC s) : InvC s := by
  obtain ⟨ops, rfl⟩ := hr
  unfold execOps
  have hgen : ∀ (l : List OpC) (t : ContractState), InvC t → InvC (l.foldl stepC t) := by
    intro l
    induction l with
    | nil => intro t ht; exact ht
    | cons op l ih =>
      intro t ht
      exact ih (stepC t op) (invC_stepC t op ht)
  exact hgen ops initialContractState invC_initial

/-- Boolean success of one transaction, for evaluating concrete scenarios. -/
def succeedsC (s : ContractState) (op : OpC) : Bool :=
  match runOp s op with
  | .ok _ => true
  | .error _ => false

/-- C7. `setThreshold(K)` fails exactly when K < MIN_THRESHOLD (2) or K
exceeds the sum of active guardian weights, and otherwise succeeds setting the
caller's threshold to K (all other state unchanged). -/
theorem C7_setThreshold_conditions (s : ContractState) (sender : Addr) (k : Nat) :
    ((∃ e, setThreshold s sender k = Except.error e)
      ↔ (k < 2 ∨ totalGuardianWeight s sender < k)) ∧
    (2 ≤ k → k ≤ totalGuardianWeight s sender →
      setThreshold s sender k = Except.ok { s with
        thresholds := fun o => if o = sender then k else s.thresholds o }) := by
  constructor
  · unfold setThreshold MIN_THRESHOLD_C
    constructor
    · intro ⟨e, he⟩
      by_cases hc1 : k < 2
      · exact Or.inl hc1
      by_cases hc2 : totalGuardianWeight s sender < k
      · exact Or.inr hc2
      rw [if_neg hc1, if_neg hc2] at he
      exact Except.noConfusion he
    · intro hor
      split_ifs with hc1 hc2
      · exact ⟨_, rfl⟩
      · exact ⟨_, rfl⟩
      · rcases hor with h | h <;> omega
  · intro h1 h2
    unfold setThreshold MIN_THRESHOLD_C
    rw [if_neg (by omega), if_neg (by omega)]

/-- Witness for C7: with one active guardian of weight 3, threshold 2 is
accepted; threshold 5 on a fresh account (total weight 0) is rejected. -/
theorem C7_witness :
    2 ≤ 2 ∧
    2 ≤ totalGuardianWeight (stepC initialContractState (OpC.addGuardian 1 2 3)) 1 ∧
    setThreshold (stepC initialContractState (OpC.addGuardian 1 2 3)) 1 2
      = Except.ok { (stepC initialContractState (OpC.addGuardian 1 2 3)) with
          thresholds := fun o =>
            if o = 1 then 2
            else (stepC initialContractState (OpC.addGuardian 1 2 3)).thresholds o } ∧
    (∃ e, setThreshold initialContractState 1 5 = Except.error e) :=
  ⟨by decide, by decide,
    (C7_setThreshold_conditions (stepC initialContractState (OpC.addGuardian 1 2 3))
      1 2).2 (by decide) (by decide),
    (C7_setThreshold_conditions initialContractState 1 5).1.mpr (by decide)⟩

theorem stepC_addGuardian_requests (s : ContractState) (sender g : Addr) (w : Nat) :
    (stepC s (OpC.addGuardian sender g w)).recoveryRequests = s.recoveryRequests := by
  simp only [stepC, runOp]
  unfold addGuardian
  split_ifs <;> rfl

theorem stepC_removeGuardian_requests (s : ContractState) (sender g : Addr) :
    (stepC s (OpC.removeGuardian sender g)).recoveryRequests = s.recoveryRequests := by
  simp only [stepC, runOp]
  unfold removeGuardian
  rcases hd : deactivateFirst (s.guardians sender) g with _ | l <;> rfl

theorem stepC_setThreshold_requests (s : ContractState) (sender : Addr) (k : Nat) :
    (stepC s (OpC.setThreshold sender k)).recoveryRequests = s.recoveryRequests := by
  simp only [stepC, runOp]
  unfold setThreshold
  split_ifs <;> rfl

/-- C9. `setThreshold`, `addGuardian` and `removeGuardian` leave every recovery
request untouched: in particular each request's snapshotted threshold and its
accumulated approval weight are unchanged, whether the call succeeds or
reverts. -/
theorem C9_config_ops_requests_frame (s : ContractState) (sender g : Addr)
    (w k id : Nat) :
    ((stepC s (OpC.addGuardian sender g w)).recoveryRequests id).threshold
        = (s.recoveryRequests id).threshold ∧
    ((stepC s (OpC.addGuardian sender g w)).recoveryRequests id).approvalWeight
        = (s.recoveryRequests id).approvalWeight ∧
    ((stepC s (OpC.removeGuardian sender g)).recoveryRequests id).threshold
        = (s.recoveryRequests id).threshold ∧
    ((stepC s (OpC.removeGuardian sender g)).recoveryRequests id).approvalWeight
        = (s.recoveryRequests id).approvalWeight ∧
    ((stepC s (OpC.setThreshold sender k)).recoveryRequests id).threshold
        = (s.recoveryRequests id).threshold ∧
    ((stepC s (OpC.setThreshold sender k)).recoveryRequests id).approvalWeight
        = (s.recoveryRequests id).approvalWeight := by
  rw [stepC_addGuardian_requests, stepC_removeGuardian_requests,
    stepC_setThreshold_requests]
  exact ⟨rfl, rfl, rfl, rfl, rfl, rfl⟩

theorem deactivateFirst_length : ∀ (l : List GuardianC) (a : Addr) (l2 : List GuardianC),
    deactivateFirst l a = some l2 → l2.length = l.length := by
  intro l
  induction l with
  | nil => intro a l2 h; exact Option.noConfusion h
  | cons g gs ih =>
    intro a l2 h
    unfold deactivateFirst at h
    split_ifs at h
    · cases h
      rfl
    · rcases hd : deactivateFirst gs a with _ | l3 <;> rw [hd] at h
      · exact Option.noConfusion h
      · cases h
        simp [ih a l3 hd]

theorem stepC_guardians_length_mono (s : ContractState) (op : OpC) (o : Addr) :
    (s.guardians o).length ≤ ((stepC s op).guardians o).length := by
  cases op with
  | addGuardian sender g w =>
    simp only [stepC, runOp]
    unfold addGuardian
    split_ifs <;> simp only
    any_goals exact le_refl _
    by_cases ho : o = sender
    · rw [if_pos ho, ho]
      simp
    · rw [if_neg ho]
  | removeGuardian sender g =>
    simp only [stepC, runOp]
    unfold removeGuardian
    rcases hd : deactivateFirst (s.guardians sender) g with _ | l
    · exact le_refl _
    · simp only
      by_cases ho : o = sender
      · rw [if_pos ho, ho, deactivateFirst_length (s.guardians sender) g l hd]
      · rw [if_neg ho]
  | setThreshold sender k =>
    simp only [stepC, runOp]
    unfold setThreshold
    split_ifs <;> exact le_refl _
  | initiateRecovery sender ow n t =>
    simp only [stepC, runOp]
    unfold initiateRecovery
    split_ifs <;> rfl
  | approveRecovery sender id =>
    simp only [stepC, runOp]
    unfold approveRecovery
    split_ifs <;> exact le_refl _
  | executeRecovery id t =>
    simp only [stepC, runOp]
    unfold executeRecovery
    split_ifs <;> simp only
    any_goals exact le_refl _
    by_cases ho : o = (s.recoveryRequests id).newOwner
    · rw [if_pos ho, ho]
      simp
    · rw [if_neg ho]
  | cancelRecovery sender id =>
    simp only [stepC, runOp]
    unfold cancelRecovery
    split_ifs <;> exact le_refl _

/-- C10. `addGuardian` fails with `MaxGuardiansReached` exactly when the stored
guardian list (active and soft-deleted entries together) has reached
MAX_GUARDIANS = 10; `removeGuardian` never frees a slot (it preserves the list
length); no operation ever shrinks a guardian list; and with a full list
`addGuardian` always fails. -/
theorem C10_guardian_cap (s : ContractState) (sender guardian : Addr) (w : Nat) :
    (guardian ≠ 0 → guardian ≠ sender →
      (addGuardian s sender guardian w
          = Except.error ContractError.MaxGuardiansReached
        ↔ MAX_GUARDIANS ≤ (s.guardians sender).length)) ∧
    (∀ g2 o, ((stepC s (OpC.removeGuardian sender g2)).guardians o).length
        = (s.guardians o).length) ∧
    (∀ op o, (s.guardians o).length ≤ ((stepC s op).guardians o).length) ∧
    (MAX_GUARDIANS ≤ (s.guardians sender).length →
      ∃ e, addGuardian s sender guardian w = Except.error e) := by
  refine ⟨?_, ?_, fun op o => stepC_guardians_length_mono s op o, ?_⟩
  · intro h0 hs
    unfold addGuardian
    rw [if_neg h0, if_neg hs]
    constructor
    · intro he
      split_ifs at he with hc
      · exact hc
      all_goals exact absurd (Except.error.inj he) (by intro hh; cases hh)
    · intro hc
      rw [if_pos hc]
  · intro g2 o
    simp only [stepC, runOp]
    unfold removeGuardian
    rcases hd : deactivateFirst (s.guardians sender) g2 with _ | l
    · rfl
    · simp only
      by_cases ho : o = sender
      · rw [if_pos ho, ho, deactivateFirst_length (s.guardians sender) g2 l hd]
      · rw [if_neg ho]
  · intro hfull
    unfold addGuardian
    by_cases h0 : guardian = 0
    · rw [if_pos h0]; exact ⟨_, rfl⟩
    rw [if_neg h0]
    by_cases hs : guardian = sender
    · rw [if_pos hs]; exact ⟨_, rfl⟩
    rw [if_neg hs, if_pos hfull]
    exact ⟨_, rfl⟩

/-- C2 (amended). `executeRecovery` fails whenever the time-lock has not
elapsed or the approval weight is below the snapshotted threshold; on success
it clears the owner's active-request slot, marks the request executed, appends
copies of the owner's active guardians to the new owner's guardian list and
copies the owner's threshold to the new owner — so that when the new owner
previously had no guardians, the new owner's guardian set equals the old
owner's active guardians at execution time. -/
theorem C2_executeRecovery_behavior (s s2 : ContractState) (requestId now : Nat) :
    (¬((s.recoveryRequests requestId).executeAfter ≤ now
        ∧ (s.recoveryRequests requestId).threshold
          ≤ (s.recoveryRequests requestId).approvalWeight) →
      ∃ e, executeRecovery s requestId now = Except.error e) ∧
    (executeRecovery s requestId now = Except.ok s2 →
      s2.activeRecovery (s.recoveryRequests requestId).owner = 0 ∧
      (s2.recoveryRequests requestId).executed = true ∧
      s2.guardians (s.recoveryRequests requestId).newOwner
        = s.guardians (s.recoveryRequests requestId).newOwner
          ++ getGuardiansView s (s.recoveryRequests requestId).owner ∧
      s2.thresholds (s.recoveryRequests requestId).newOwner
        = s.thresholds (s.recoveryRequests requestId).owner ∧
      (s.guardians (s.recoveryRequests requestId).newOwner = [] →
        getGuardiansView s2 (s.recoveryRequests requestId).newOwner
          = getGuardiansView s (s.recoveryRequests requestId).owner)) := by
  constructor
  · intro hnot
    unfold executeRecovery
    split_ifs with hc1 hc2 hc3 hc4 hc5
    · exact ⟨_, rfl⟩
    · exact ⟨_, rfl⟩
    · exact ⟨_, rfl⟩
    · exact ⟨_, rfl⟩
    · exact ⟨_, rfl⟩
    · exact absurd ⟨by omega, by omega⟩ hnot
  · intro heq
    unfold executeRecovery at heq
    split_ifs at heq with hc1 hc2 hc3 hc4 hc5 <;> try exact Except.noConfusion heq
    cases heq
    refine ⟨?_, ?_, ?_, ?_, ?_⟩
    · simp
    · simp
    · simp [getGuardiansView]
    · simp
    · intro hempty
      simp [getGuardiansView, hempty, List.filter_filter]

/-- Counterexample to C2 as stated: when the proposed new owner already has a
guardian of their own, after a successful `executeRecovery` the new owner's
guardian set is the union, not the old owner's active guardian set. Owner 1
has guardian 2 (weight 2, threshold 2); owner 3 already has guardian 4;
guardian 2 initiates recovery of 1 to 3 and approves; execution succeeds after
the 7-day delay, yet owner 3's active guardians differ from owner 1's. -/
theorem C2_counterexample :
    succeedsC (execOps [OpC.addGuardian 1 2 2, OpC.setThreshold 1 2,
        OpC.addGuardian 3 4 1, OpC.initiateRecovery 2 1 3 0,
        OpC.approveRecovery 2 1]) (OpC.executeRecovery 1 604800) = true ∧
    getGuardiansView (stepC (execOps [OpC.addGuardian 1 2 2, OpC.setThreshold 1 2,
        OpC.addGuardian 3 4 1, OpC.initiateRecovery 2 1 3 0,
        OpC.approveRecovery 2 1]) (OpC.executeRecovery 1 604800)) 3
      ≠ getGuardiansView (execOps [OpC.addGuardian 1 2 2, OpC.setThreshold 1 2,
        OpC.addGuardian 3 4 1, OpC.initiateRecovery 2 1 3 0,
        OpC.approveRecovery 2 1]) 1 := by
  exact ⟨by decide, by decide⟩

/-- Witness for C2: the failure direction at time 0 (time-lock unexpired), and
the success direction on a reachable scenario. -/
theorem C2_witness :
    (¬((execOps [OpC.addGuardian 1 2 2, OpC.setThreshold 1 2,
          OpC.initiateRecovery 2 1 3 0, OpC.approveRecovery 2 1]).recoveryRequests 1).executeAfter ≤ 0 ∧
        True) ∧
    (∃ e, executeRecovery (execOps [OpC.addGuardian 1 2 2, OpC.setThreshold 1 2,
        OpC.initiateRecovery 2 1 3 0, OpC.approveRecovery 2 1]) 1 0
      = Except.error e) ∧
    ((stepC (execOps [OpC.addGuardian 1 2 2, OpC.setThreshold 1 2,
        OpC.initiateRecovery 2 1 3 0, OpC.approveRecovery 2 1])
        (OpC.executeRecovery 1 604800)).recoveryRequests 1).executed = true :=
  ⟨⟨by decide, trivial⟩,
    (C2_executeRecovery_behavior (execOps [OpC.addGuardian 1 2 2,
      OpC.setThreshold 1 2, OpC.initiateRecovery 2 1 3 0,
      OpC.approveRecovery 2 1]) initialContractState 1 0).1 (by decide),
    ((C2_executeRecovery_behavior (execOps [OpC.addGuardian 1 2 2,
        OpC.setThreshold 1 2, OpC.initiateRecovery 2 1 3 0,
        OpC.approveRecovery 2 1])
        (stepC (execOps [OpC.addGuardian 1 2 2, OpC.setThreshold 1 2,
          OpC.initiateRecovery 2 1 3 0, OpC.approveRecovery 2 1])
          (OpC.executeRecovery 1 604800)) 1 604800).2 (by rfl)).2.1⟩

/-- No two active guardians of `o` share an address. -/
def NoDupActive (s : ContractState) (o : Addr) : Prop :=
  ((getGuardiansView s o).map GuardianC.addr).Nodup

instance (s : ContractState) (o : Addr) : Decidable (NoDupActive s o) :=
  inferInstanceAs (Decidable (((getGuardiansView s o).map GuardianC.addr).Nodup))

theorem deactivateFirst_filter_sublist :
    ∀ (l : List GuardianC) (a : Addr) (l2 : List GuardianC),
      deactivateFirst l a = some l2 →
      (l2.filter (fun g => g.isActive)).Sublist (l.filter (fun g => g.isActive)) := by
  intro l
  induction l with
  | nil => intro a l2 h; exact Option.noConfusion h
  | cons g gs ih =>
    intro a l2 h
    unfold deactivateFirst at h
    split_ifs at h with hc
    · cases h
      rw [List.filter_cons, List.filter_cons]
      have hact : g.isActive = true := by
        have hh := hc
        simp only [Bool.and_eq_true] at hh
        exact hh.2
      rw [hact]
      simp only [if_pos rfl, if_neg (by simp : ¬(false = true))]
      exact List.sublist_cons_self g _
    · rcases hd : deactivateFirst gs a with _ | l3 <;> rw [hd] at h
      · exact Option.noConfusion h
      · cases h
        rw [List.filter_cons, List.filter_cons]
        by_cases hact : g.isActive = true
        · rw [if_pos hact, if_pos hact]
          exact List.Sublist.cons₂ g (ih a l3 hd)
        · rw [if_neg hact, if_neg hact]
          exact ih a l3 hd

/-- C5 (amended). Per-owner active-guardian address uniqueness is preserved by
`addGuardian` and `removeGuardian`; `executeRecovery`'s transplant preserves it
provided no active guardian of the new owner shares an address with an active
guardian of the old owner (without that proviso the transplant can duplicate —
see the counterexample). -/
theorem C5_active_guardian_uniqueness (s s2 : ContractState) (sender g : Addr)
    (w requestId now : Nat) :
    (addGuardian s sender g w = Except.ok s2 →
      (∀ o, NoDupActive s o) → ∀ o, NoDupActive s2 o) ∧
    (removeGuardian s sender g = Except.ok s2 →
      (∀ o, NoDupActive s o) → ∀ o, NoDupActive s2 o) ∧
    (executeRecovery s requestId now = Except.ok s2 →
      (∀ o, NoDupActive s o) →
      List.Disjoint
        ((getGuardiansView s (s.recoveryRequests requestId).newOwner).map
          GuardianC.addr)
        ((getGuardiansView s (s.recoveryRequests requestId).owner).map
          GuardianC.addr) →
      ∀ o, NoDupActive s2 o) := by
  refine ⟨?_, ?_, ?_⟩
  · intro heq h o
    unfold addGuardian at heq
    split_ifs at heq with hc1 hc2 hc3 hc4 hc5 <;> try exact Except.noConfusion heq
    cases heq
    unfold NoDupActive getGuardiansView
    simp only
    by_cases ho : o = sender
    · rw [if_pos ho]
      rw [List.filter_append]
      have hactive : List.filter (fun g2 => g2.isActive)
          [(⟨g, w, true⟩ : GuardianC)] = [⟨g, w, true⟩] := rfl
      rw [hactive, List.map_append]
      rw [List.nodup_append]
      refine ⟨h sender, by simp, ?_⟩
      intro a ha hmem
      have hag : a = g := by
        rcases List.mem_map.mp hmem with ⟨ge, hge, haddr⟩
        have : ge = ⟨g, w, true⟩ := by simpa using hge
        rw [this] at haddr
        exact haddr.symm
      rcases List.mem_map.mp ha with ⟨ge, hge, haddr⟩
      rcases List.mem_filter.mp hge with ⟨hmm, hact⟩
      apply hc5
      rw [List.any_eq_true]
      refine ⟨ge, hmm, ?_⟩
      rw [Bool.and_eq_true, beq_iff_eq]
      exact ⟨by rw [haddr, hag], hact⟩
    · rw [if_neg ho]
      exact h o
  · intro heq h o
    unfold removeGuardian at heq
    rcases hd : deactivateFirst (s.guardians sender) g with _ | l <;> rw [hd] at heq
    · exact Except.noConfusion heq
    · cases heq
      unfold NoDupActive getGuardiansView
      simp only
      by_cases ho : o = sender
      · rw [if_pos ho]
        refine List.Nodup.sublist ?_ (h sender)
        exact List.Sublist.map _ (deactivateFirst_filter_sublist _ g l hd)
      · rw [if_neg ho]
        exact h o
  · intro heq h hdisj o
    unfold executeRecovery at heq
    split_ifs at heq with hc1 hc2 hc3 hc4 hc5 <;> try exact Except.noConfusion heq
    cases heq
    unfold NoDupActive getGuardiansView
    simp only
    by_cases ho : o = (s.recoveryRequests requestId).newOwner
    · rw [if_pos ho]
      rw [List.filter_append, List.filter_filter, List.map_append]
      rw [List.nodup_append]
      have hff : List.filter (fun a => a.isActive && a.isActive)
          (s.guardians (s.recoveryRequests requestId).owner)
          = List.filter (fun a => a.isActive)
            (s.guardians (s.recoveryRequests requestId).owner) := by
        simp
      rw [hff]
      exact ⟨h _, h _, hdisj⟩
    · rw [if_neg ho]
      exact h o

/-- Counterexample to C5 as stated: owners 1 and 3 both have guardian address 2
active; recovering owner 1 to new owner 3 succeeds and leaves owner 3 with two
active guardian entries for the same address. -/
theorem C5_counterexample :
    NoDupActive (execOps [OpC.addGuardian 1 2 2, OpC.setThreshold 1 2,
      OpC.addGuardian 3 2 1, OpC.initiateRecovery 2 1 3 0,
      OpC.approveRecovery 2 1]) 1 ∧
    NoDupActive (execOps [OpC.addGuardian 1 2 2, OpC.setThreshold 1 2,
      OpC.addGuardian 3 2 1, OpC.initiateRecovery 2 1 3 0,
      OpC.approveRecovery 2 1]) 3 ∧
    succeedsC (execOps [OpC.addGuardian 1 2 2, OpC.setThreshold 1 2,
      OpC.addGuardian 3 2 1, OpC.initiateRecovery 2 1 3 0,
      OpC.approveRecovery 2 1]) (OpC.executeRecovery 1 604800) = true ∧
    ¬ NoDupActive (stepC (execOps [OpC.addGuardian 1 2 2, OpC.setThreshold 1 2,
      OpC.addGuardian 3 2 1, OpC.initiateRecovery 2 1 3 0,
      OpC.approveRecovery 2 1]) (OpC.executeRecovery 1 604800)) 3 := by
  exact ⟨by decide, by decide, by decide, by decide⟩

/-- Witness for C5: `addGuardian` on a fresh account preserves uniqueness. -/
theorem C5_witness :
    addGuardian initialContractState 1 2 1
      = Except.ok (stepC initialContractState (OpC.addGuardian 1 2 1)) ∧
    (∀ o, NoDupActive initialContractState o) ∧
    (∀ o, NoDupActive (stepC initialContractState (OpC.addGuardian 1 2 1)) o) :=
  ⟨by rfl, fun o => List.nodup_nil,
    (C5_active_guardian_uniqueness initialContractState
      (stepC initialContractState (OpC.addGuardian 1 2 1)) 1 2 1 0 0).1
      (by rfl) (fun o => List.nodup_nil)⟩

/-- C6 (amended). A successful `executeRecovery` on a reachable state leaves
the old owner's guardian list and threshold stored unchanged under the old
owner's address: the transplant copies the configuration, it does not remove
it. -/
theorem C6_old_owner_config_retained (s s2 : ContractState) (requestId now : Nat)
    (hreach : ReachableC s)
    (heq : executeRecovery s requestId now = Except.ok s2) :
    s2.guardians (s.recoveryRequests requestId).owner
      = s.guardians (s.recoveryRequests requestId).owner ∧
    s2.thresholds (s.recoveryRequests requestId).owner
      = s.thresholds (s.recoveryRequests requestId).owner := by
  obtain ⟨h1, h2, h3, h4⟩ := invC_reachable s hreach
  unfold executeRecovery at heq
  split_ifs at heq with hc1 hc2 hc3 hc4 hc5 <;> try exact Except.noConfusion heq
  have hne : (s.recoveryRequests requestId).owner
      ≠ (s.recoveryRequests requestId).newOwner := (h2 requestId hc1).1
  cases heq
  constructor
  · simp only
    rw [if_neg hne]
  · simp only
    rw [if_neg hne]

/-- Counterexample to C6 as stated: after a successful recovery of owner 1 to
owner 3, the guardian list and threshold stored under owner 1 are exactly what
they were before execution, and nonempty/nonzero — nothing is removed. -/
theorem C6_counterexample :
    succeedsC (execOps [OpC.addGuardian 1 2 2, OpC.setThreshold 1 2,
      OpC.initiateRecovery 2 1 3 0, OpC.approveRecovery 2 1])
      (OpC.executeRecovery 1 604800) = true ∧
    (stepC (execOps [OpC.addGuardian 1 2 2, OpC.setThreshold 1 2,
      OpC.initiateRecovery 2 1 3 0, OpC.approveRecovery 2 1])
      (OpC.executeRecovery 1 604800)).guardians 1
      = [⟨2, 2, true⟩] ∧
    (stepC (execOps [OpC.addGuardian 1 2 2, OpC.setThreshold 1 2,
      OpC.initiateRecovery 2 1 3 0, OpC.approveRecovery 2 1])
      (OpC.executeRecovery 1 604800)).thresholds 1 = 2 := by
  exact ⟨by decide, by decide, by decide⟩

/-- Witness for C6: the amended retention statement on the concrete reachable
scenario. -/
theorem C6_witness :
    ReachableC (execOps [OpC.addGuardian 1 2 2, OpC.setThreshold 1 2,
      OpC.initiateRecovery 2 1 3 0, OpC.approveRecovery 2 1]) ∧
    ((stepC (execOps [OpC.addGuardian 1 2 2, OpC.setThreshold 1 2,
        OpC.initiateRecovery 2 1 3 0, OpC.approveRecovery 2 1])
        (OpC.executeRecovery 1 604800)).guardians
        (((execOps [OpC.addGuardian 1 2 2, OpC.setThreshold 1 2,
          OpC.initiateRecovery 2 1 3 0,
          OpC.approveRecovery 2 1]).recoveryRequests 1).owner)
      = (execOps [OpC.addGuardian 1 2 2, OpC.setThreshold 1 2,
          OpC.initiateRecovery 2 1 3 0, OpC.approveRecovery 2 1]).guardians
        (((execOps [OpC.addGuardian 1 2 2, OpC.setThreshold 1 2,
          OpC.initiateRecovery 2 1 3 0,
          OpC.approveRecovery 2 1]).recoveryRequests 1).owner)) :=
  ⟨⟨[OpC.addGuardian 1 2 2, OpC.setThreshold 1 2,
      OpC.initiateRecovery 2 1 3 0, OpC.approveRecovery 2 1], rfl⟩,
    (C6_old_owner_config_retained
      (execOps [OpC.addGuardian 1 2 2, OpC.setThreshold 1 2,
        OpC.initiateRecovery 2 1 3 0, OpC.approveRecovery 2 1])
      (stepC (execOps [OpC.addGuardian 1 2 2, OpC.setThreshold 1 2,
        OpC.initiateRecovery 2 1 3 0, OpC.approveRecovery 2 1])
        (OpC.executeRecovery 1 604800)) 1 604800
      ⟨[OpC.addGuardian 1 2 2, OpC.setThreshold 1 2,
        OpC.initiateRecovery 2 1 3 0, OpC.approveRecovery 2 1], rfl⟩
      (by rfl)).1⟩

/-- Witness for C10: after ten `addGuardian` calls the list is full; adding
guardian 12 then fails, with `MaxGuardiansReached` when its address is valid. -/
theorem C10_witness :
    (12 : Addr) ≠ 0 ∧ (12 : Addr) ≠ 1 ∧
    MAX_GUARDIANS ≤ ((execOps [OpC.addGuardian 1 2 1, OpC.addGuardian 1 3 1,
      OpC.addGuardian 1 4 1, OpC.addGuardian 1 5 1, OpC.addGuardian 1 6 1,
      OpC.addGuardian 1 7 1, OpC.addGuardian 1 8 1, OpC.addGuardian 1 9 1,
      OpC.addGuardian 1 10 1, OpC.addGuardian 1 11 1]).guardians 1).length ∧
    addGuardian (execOps [OpC.addGuardian 1 2 1, OpC.addGuardian 1 3 1,
      OpC.addGuardian 1 4 1, OpC.addGuardian 1 5 1, OpC.addGuardian 1 6 1,
      OpC.addGuardian 1 7 1, OpC.addGuardian 1 8 1, OpC.addGuardian 1 9 1,
      OpC.addGuardian 1 10 1, OpC.addGuardian 1 11 1]) 1 12 1
      = Except.error ContractError.MaxGuardiansReached ∧
    (∃ e, addGuardian (execOps [OpC.addGuardian 1 2 1, OpC.addGuardian 1 3 1,
      OpC.addGuardian 1 4 1, OpC.addGuardian 1 5 1, OpC.addGuardian 1 6 1,
      OpC.addGuardian 1 7 1, OpC.addGuardian 1 8 1, OpC.addGuardian 1 9 1,
      OpC.addGuardian 1 10 1, OpC.addGuardian 1 11 1]) 1 12 1
      = Except.error e) :=
  ⟨by decide, by decide, by decide,
    ((C10_guardian_cap (execOps [OpC.addGuardian 1 2 1, OpC.addGuardian 1 3 1,
      OpC.addGuardian 1 4 1, OpC.addGuardian 1 5 1, OpC.addGuardian 1 6 1,
      OpC.addGuardian 1 7 1, OpC.addGuardian 1 8 1, OpC.addGuardian 1 9 1,
      OpC.addGuardian 1 10 1, OpC.addGuardian 1 11 1]) 1 12 1).1
      (by decide) (by decide)).mpr (by decide),
    (C10_guardian_cap (execOps [OpC.addGuardian 1 2 1, OpC.addGuardian 1 3 1,
      OpC.addGuardian 1 4 1, OpC.addGuardian 1 5 1, OpC.addGuardian 1 6 1,
      OpC.addGuardian 1 7 1, OpC.addGuardian 1 8 1, OpC.addGuardian 1 9 1,
      OpC.addGuardian 1 10 1, OpC.addGuardian 1 11 1]) 1 12 1).2.2.2 (by decide)⟩

/-! ## Off-ledger recovery orchestrator

Translated from `RecoveryOrchestrator` (src/unnamed/part_011). Addresses and
session ids are `Nat` (addresses are compared lower-cased in the source, so a
canonical numeric value models each distinct address; `crypto.randomUUID` is an
explicit `freshId` argument). `Date.now()` is an explicit `now` argument in
milliseconds. The localStorage session list and the per-session share records
form the state; `GuardianManager` is an external collaborator, so its
answers (`isRecoveryConfigured`, the config threshold, `getGuardians`) are
arguments. Shares travel base64-encoded in the source; encode/decode is an
inverse pair, so a share is modelled by its byte list. -/

inductive RecoveryStatusO
  | pending | collecting | ready | executable | executed | cancelled
deriving DecidableEq

structure GuardianO where
  gid : Nat
  addr : Nat
deriving DecidableEq

structure SessionO where
  sid : Nat
  userAddress : Nat
  newOwnerAddress : Nat
  status : RecoveryStatusO
  threshold : Nat
  collectedShares : List Nat
  initiatedAt : Nat
  executeAfter : Nat
  executedAt : Option Nat
  cancelledAt : Option Nat
deriving DecidableEq

structure OrchState where
  sessions : List SessionO
  shareStore : Nat → List (Nat × List GF256)

def initialOrchState : OrchState := ⟨[], fun _ => []⟩

def RECOVERY_DELAY_MS : Nat := 604800000

/-- Translated from `getSession`: first stored session with this id. -/
def getSessionO (st : OrchState) (sid : Nat) : Option SessionO :=
  st.sessions.find? (fun s => s.sid == sid)

/-- The predicate of `getActiveSession`: this user's session whose status is
neither executed nor cancelled. -/
def sessionActiveFor (user : Nat) (s : SessionO) : Bool :=
  (s.userAddress == user) && !(s.status == RecoveryStatusO.executed)
    && !(s.status == RecoveryStatusO.cancelled)

/-- Translated from `getActiveSession`. -/
def getActiveSessionO (st : OrchState) (user : Nat) : Option SessionO :=
  st.sessions.find? (sessionActiveFor user)

/-- Translated from `saveSession`: replace the session with the same id, or
append. -/
def saveSession (st : OrchState) (sess : SessionO) : OrchState :=
  { st with sessions :=
      match st.sessions.findIdx? (fun s => s.sid == sess.sid) with
      | some i => st.sessions.set i sess
      | none => st.sessions ++ [sess] }

/-- Assignment into the per-session share record (object key update:
overwrite in place or append). -/
def setAssoc : List (Nat × List GF256) → Nat → List GF256 → List (Nat × List GF256)
  | [], g, v => [(g, v)]
  | (k, w) :: rest, g, v =>
    if k = g then (g, v) :: rest else (k, w) :: setAssoc rest g v

/-- Translated from `storeSubmittedShare`. -/
def storeShare (st : OrchState) (sid gid : Nat) (share : List GF256) : OrchState :=
  { st with shareStore := fun k =>
      if k = sid then setAssoc (st.shareStore sid) gid share else st.shareStore k }

/-- Translated from `getSubmittedShares`: the stored record's values. -/
def getSubmittedShares (st : OrchState) (sid : Nat) : List (List GF256) :=
  (st.shareStore sid).map (fun p => p.2)

/-- Translated from `RecoveryOrchestrator.initiateRecovery` (lines 35-106). -/
def orchInitiateRecovery (st : OrchState) (freshId user newOwner : Nat)
    (configured : Bool) (cfgThreshold now : Nat) :
    Except String (SessionO × OrchState) :=
  if user = 0 ∨ newOwner = 0 then
    .error "Both user and new owner addresses are required"
  else if user = newOwner then
    .error "New owner cannot be the same as current owner"
  else if !configured then
    .error "Recovery not configured - need at least threshold guardians"
  else match getActiveSessionO st user with
  | some _ => .error "Recovery already in progress. Cancel existing session first."
  | none =>
    let sess : SessionO :=
      ⟨freshId, user, newOwner, .pending, cfgThreshold, [], now,
        now + RECOVERY_DELAY_MS, none, none⟩
    .ok (sess, saveSession st sess)

/-- Translated from `submitShare` (lines 113-169). -/
def orchSubmitShare (st : OrchState) (sid guardianAddress : Nat)
    (share : List GF256) (guardians : List GuardianO) : Except String OrchState :=
  match getSessionO st sid with
  | none => .error "Recovery session not found"
  | some sess =>
    if sess.status == RecoveryStatusO.executed
        || sess.status == RecoveryStatusO.cancelled then
      .error "Recovery session is terminal"
    else match guardians.find? (fun g => g.addr == guardianAddress) with
    | none => .error "Not an authorized guardian"
    | some guardian =>
      if guardian.gid ∈ sess.collectedShares then .error "Share already submitted"
      else
        let collected := sess.collectedShares ++ [guardian.gid]
        .ok (saveSession (storeShare st sid guardian.gid share)
          { sess with
            collectedShares := collected
            status := if sess.threshold ≤ collected.length then .ready
              else .collecting })

/-- Translated from `checkReadiness` (lines 177-192): promote ready to
executable once the count and the clock allow, report executability. -/
def orchCheckReadiness (st : OrchState) (sid now : Nat) : Bool × OrchState :=
  match getSessionO st sid with
  | none => (false, st)
  | some sess =>
    if (sess.threshold ≤ sess.collectedShares.length)
        ∧ (sess.executeAfter ≤ now) ∧ sess.status = RecoveryStatusO.ready then
      (true, saveSession st { sess with status := .executable })
    else (sess.status == RecoveryStatusO.executable, st)

structure RecoveryResultO where
  success : Bool
  reconstructedSecret : Option (List GF256)
  errmsg : Option String
deriving DecidableEq

/-- Translated from `RecoveryOrchestrator.executeRecovery` (lines 200-259):
threshold and time-lock checks, then reconstruction and marking executed; a
reconstruction failure is caught and reported without a state change. Note the
source has no check of the session's status here. -/
def orchExecuteRecovery (st : OrchState) (sid now : Nat) :
    RecoveryResultO × OrchState :=
  match getSessionO st sid with
  | none => (⟨false, none, some "Recovery session not found"⟩, st)
  | some sess =>
    if sess.collectedShares.length < sess.threshold then
      (⟨false, none, some "Need more shares"⟩, st)
    else if now < sess.executeAfter then
      (⟨false, none, some "Time-lock not expired"⟩, st)
    else match combineShares (getSubmittedShares st sid) with
    | .error e => (⟨false, none, some e⟩, st)
    | .ok secret =>
      (⟨true, some secret, none⟩,
        saveSession st { sess with status := .executed, executedAt := some now })

/-- Translated from `cancelRecovery` (lines 267-306). -/
def orchCancelRecovery (st : OrchState) (sid canceller : Nat)
    (guardians : List GuardianO) (now : Nat) : Except String OrchState :=
  match getSessionO st sid with
  | none => .error "Recovery session not found"
  | some sess =>
    if sess.status == RecoveryStatusO.executed then
      .error "Cannot cancel executed recovery"
    else if sess.status == RecoveryStatusO.cancelled then
      .error "Recovery already cancelled"
    else if ¬(canceller = sess.userAddress
        ∨ guardians.any (fun g => g.addr == canceller) = true) then
      .error "Not authorized to cancel recovery"
    else .ok (saveSession st { sess with status := .cancelled, cancelledAt := some now })

/-- One externally triggered orchestrator call, with the collaborator answers
it observed. -/
inductive OpO
  | initiate (freshId user newOwner : Nat) (configured : Bool) (cfgThreshold now : Nat)
  | submit (sid guardianAddress : Nat) (share : List GF256) (guardians : List GuardianO)
  | check (sid now : Nat)
  | execute (sid now : Nat)
  | cancel (sid canceller : Nat) (guardians : List GuardianO) (now : Nat)

def stepO (st : OrchState) (op : OpO) : OrchState :=
  match op with
  | .initiate f u n c t now =>
    match orchInitiateRecovery st f u n c t now with
    | .ok p => p.2
    | .error _ => st
  | .submit sid g sh gs =>
    match orchSubmitShare st sid g sh gs with
    | .ok st2 => st2
    | .error _ => st
  | .check sid now => (orchCheckReadiness st sid now).2
  | .execute sid now => (orchExecuteRecovery st sid now).2
  | .cancel sid c gs now =>
    match orchCancelRecovery st sid c gs now with
    | .ok st2 => st2
    | .error _ => st

def execOpsO (ops : List OpO) : OrchState := ops.foldl stepO initialOrchState

/-- Orchestrator states reachable from an empty store. -/
def ReachableO (st : OrchState) : Prop := ∃ ops : List OpO, st = execOpsO ops

/-! ## At most one active session per user (orchestrator invariant) -/

/-- At most one session per user is active (neither executed nor cancelled). -/
def InvO (st : OrchState) : Prop :=
  ∀ user : Nat, st.sessions.countP (sessionActiveFor user) ≤ 1

theorem sessions_saveSession (st : OrchState) (sess : SessionO) :
    (saveSession st sess).sessions =
      match st.sessions.findIdx? (fun s => s.sid == sess.sid) with
      | some i => st.sessions.set i sess
      | none => st.sessions ++ [sess] := rfl

theorem sessions_storeShare (st : OrchState) (sid gid : Nat) (sh : List GF256) :
    (storeShare st sid gid sh).sessions = st.sessions := rfl

theorem countP_set_le_of_false {α : Type} (p : α → Bool) (x : α) (hx : p x = false) :
    ∀ (l : List α) (i : Nat), (l.set i x).countP p ≤ l.countP p := by
  intro l
  induction l with
  | nil => intro i; simp
  | cons a t ih =>
    intro i
    cases i with
    | zero =>
      rw [List.set_cons_zero, List.countP_cons, List.countP_cons, hx]
      simp only [Bool.false_eq_true, if_false]
      exact Nat.le_add_right _ _
    | succ n =>
      rw [List.set_cons_succ, List.countP_cons, List.countP_cons]
      exact Nat.add_le_add_right (ih n) _

theorem countP_set_le_one {α : Type} (p : α → Bool) (x : α) :
    ∀ (l : List α) (i : Nat), l.countP p = 0 → (l.set i x).countP p ≤ 1 := by
  intro l
  induction l with
  | nil => intro i h; simp
  | cons a t ih =>
    intro i h
    rw [List.countP_cons] at h
    have ht : t.countP p = 0 := by omega
    cases i with
    | zero =>
      rw [List.set_cons_zero, List.countP_cons, ht]
      split <;> omega
    | succ n =>
      rw [List.set_cons_succ, List.countP_cons]
      have hs := ih n ht
      omega

theorem countP_set_le_of_imp {α : Type} (p : α → Bool) (x : α) :
    ∀ (l : List α) (i : Nat),
      (∀ hi : i < l.length, p x = true → p (l.get ⟨i, hi⟩) = true) →
      (l.set i x).countP p ≤ l.countP p := by
  intro l
  induction l with
  | nil => intro i _; simp
  | cons a t ih =>
    intro i h
    cases i with
    | zero =>
      rw [List.set_cons_zero, List.countP_cons, List.countP_cons]
      cases hpx : p x with
      | true =>
        have ha : p a = true := h (Nat.succ_pos _) hpx
        rw [ha]
      | false =>
        simp only [Bool.false_eq_true, if_false]
        omega
    | succ n =>
      rw [List.set_cons_succ, List.countP_cons, List.countP_cons]
      refine Nat.add_le_add_right (ih n (fun hn hpx => ?_)) _
      exact h (Nat.succ_lt_succ hn) hpx

theorem find?_findIdx?_link {α : Type} (p : α → Bool) :
    ∀ (l : List α) (x : α) (k : Nat), l.find? p = some x →
      ∃ i, ∃ hi : i < l.length, l.findIdx? p k = some (k + i) ∧ l.get ⟨i, hi⟩ = x := by
  intro l
  induction l with
  | nil => intro x k h; exact absurd h (by simp)
  | cons a t ih =>
    intro x k h
    cases hpa : p a with
    | true =>
      rw [List.find?_cons_of_pos _ hpa] at h
      injection h with h
      exact ⟨0, Nat.succ_pos _, by simp [List.findIdx?_cons, hpa], h⟩
    | false =>
      rw [List.find?_cons_of_neg _ (by simp [hpa])] at h
      obtain ⟨i, hi, hidx, hget⟩ := ih x (k + 1) h
      refine ⟨i + 1, Nat.succ_lt_succ hi, ?_, hget⟩
      rw [List.findIdx?_cons, hpa]
      simp only [Bool.false_eq_true, if_false]
      rw [hidx]
      exact congrArg some (by omega)

theorem invO_saveSession_replace (st : OrchState) (sess sess2 : SessionO)
    (hfind : st.sessions.find? (fun s => s.sid == sess2.sid) = some sess)
    (himp : ∀ u, sessionActiveFor u sess2 = true → sessionActiveFor u sess = true)
    (h : InvO st) : InvO (saveSession st sess2) := by
  obtain ⟨i, hi, hidx, hget⟩ :=
    find?_findIdx?_link (fun s => s.sid == sess2.sid) st.sessions sess 0 hfind
  rw [Nat.zero_add] at hidx
  intro u
  rw [sessions_saveSession, hidx]
  refine le_trans (countP_set_le_of_imp _ _ _ _ (fun hi2 hpx => ?_)) (h u)
  have hgt : st.sessions.get ⟨i, hi2⟩ = sess := hget
  rw [hgt]
  exact himp u hpx

theorem invO_saveSession_inactive (st : OrchState) (sess : SessionO)
    (hx : ∀ u, sessionActiveFor u sess = false)
    (h : InvO st) : InvO (saveSession st sess) := by
  intro u
  rw [sessions_saveSession]
  cases hidx : st.sessions.findIdx? (fun s => s.sid == sess.sid) with
  | none =>
    rw [List.countP_append, List.countP_cons, List.countP_nil, hx u]
    simpa using h u
  | some i =>
    exact le_trans (countP_set_le_of_false _ _ (hx u) _ _) (h u)

theorem invO_saveSession_fresh (st : OrchState) (sess : SessionO)
    (h0 : st.sessions.countP (sessionActiveFor sess.userAddress) = 0)
    (h : InvO st) : InvO (saveSession st sess) := by
  intro u
  rw [sessions_saveSession]
  by_cases hu : u = sess.userAddress
  · subst hu
    cases hidx : st.sessions.findIdx? (fun s => s.sid == sess.sid) with
    | none =>
      rw [List.countP_append, List.countP_cons, List.countP_nil, h0]
      split <;> omega
    | some i => exact countP_set_le_one _ _ _ _ h0
  · have hfalse : sessionActiveFor u sess = false := by
      have hb : (sess.userAddress == u) = false :=
        beq_eq_false_iff_ne.mpr (fun e => hu e.symm)
      simp [sessionActiveFor, hb]
    cases hidx : st.sessions.findIdx? (fun s => s.sid == sess.sid) with
    | none =>
      rw [List.countP_append, List.countP_cons, List.countP_nil, hfalse]
      simpa using h u
    | some i =>
      exact le_trans (countP_set_le_of_false _ _ hfalse _ _) (h u)

theorem invO_initiate (st : OrchState) (f u n : Nat) (c : Bool) (t now : Nat)
    (sess : SessionO) (st2 : OrchState)
    (hres : orchInitiateRecovery st f u n c t now = Except.ok (sess, st2))
    (h : InvO st) : InvO st2 := by
  unfold orchInitiateRecovery at hres
  split_ifs at hres
  split at hres
  · exact Except.noConfusion hres
  · rename_i heq
    injection hres with hp
    injection hp with hs hst
    subst hst
    apply invO_saveSession_fresh st _ ?_ h
    refine List.countP_eq_zero.mpr (fun x hx => ?_)
    have := List.find?_eq_none.mp heq x hx
    simpa using this


theorem invO_submit (st : OrchState) (sid g : Nat) (sh : List GF256)
    (gs : List GuardianO) (st2 : OrchState)
    (hres : orchSubmitShare st sid g sh gs = Except.ok st2)
    (h : InvO st) : InvO st2 := by
  unfold orchSubmitShare at hres
  split at hres
  · exact Except.noConfusion hres
  · rename_i sess heq
    split at hres
    · exact Except.noConfusion hres
    · rename_i hnterm
      split at hres
      · exact Except.noConfusion hres
      · rename_i guardian hg
        split at hres
        · exact Except.noConfusion hres
        · rename_i hnew
          injection hres with hst
          subst hst
          have hsid : sess.sid = sid := by
            have := List.find?_some heq
            simpa using this
          have hterm2 := Bool.or_eq_false_iff.mp (Bool.not_eq_true _ ▸ hnterm)
          apply invO_saveSession_replace _ sess _ ?_ ?_ ?_
          · rw [sessions_storeShare]
            rw [show sid = sess.sid from hsid.symm] at heq
            exact heq
          · intro u hu
            simp only [sessionActiveFor, Bool.and_eq_true] at hu ⊢
            refine ⟨⟨hu.1.1, ?_⟩, ?_⟩
            · rw [hterm2.1]; rfl
            · rw [hterm2.2]; rfl
          · intro u
            rw [sessions_storeShare]
            exact h u

theorem invO_check (st : OrchState) (sid now : Nat) (b : Bool) (st2 : OrchState)
    (hres : orchCheckReadiness st sid now = (b, st2))
    (h : InvO st) : InvO st2 := by
  unfold orchCheckReadiness at hres
  split at hres
  · injection hres with h1 h2
    subst h2
    exact h
  · rename_i sess hses
    split_ifs at hres with hg
    · injection hres with h1 h2
      subst h2
      have hsid : sess.sid = sid := by
        have := List.find?_some hses
        simpa using this
      apply invO_saveSession_replace st sess _ ?_ ?_ h
      · rw [show sid = sess.sid from hsid.symm] at hses
        exact hses
      · intro u hu
        simp only [sessionActiveFor, Bool.and_eq_true] at hu ⊢
        refine ⟨⟨hu.1.1, ?_⟩, ?_⟩
        · rw [hg.2.2]; rfl
        · rw [hg.2.2]; rfl
    · injection hres with h1 h2
      subst h2
      exact h

theorem invO_execute (st : OrchState) (sid now : Nat) (r : RecoveryResultO)
    (st2 : OrchState) (hres : orchExecuteRecovery st sid now = (r, st2))
    (h : InvO st) : InvO st2 := by
  unfold orchExecuteRecovery at hres
  split at hres
  · injection hres with h1 h2
    subst h2
    exact h
  · rename_i sess hses
    split_ifs at hres with h1 h2
    · injection hres with ha hb
      subst hb
      exact h
    · injection hres with ha hb
      subst hb
      exact h
    · split at hres
      · injection hres with ha hb
        subst hb
        exact h
      · injection hres with ha hb
        subst hb
        apply invO_saveSession_inactive st _ ?_ h
        intro u
        simp [sessionActiveFor]

theorem invO_cancel (st : OrchState) (sid c : Nat) (gs : List GuardianO)
    (now : Nat) (st2 : OrchState)
    (hres : orchCancelRecovery st sid c gs now = Except.ok st2)
    (h : InvO st) : InvO st2 := by
  unfold orchCancelRecovery at hres
  split at hres
  · exact Except.noConfusion hres
  · rename_i sess hses
    split_ifs at hres
    injection hres with hst
    subst hst
    apply invO_saveSession_inactive st _ ?_ h
    intro u
    simp [sessionActiveFor]

theorem invO_stepO (st : OrchState) (op : OpO) (h : InvO st) : InvO (stepO st op) := by
  cases op with
  | initiate f u n c t now =>
    simp only [stepO]
    cases hres : orchInitiateRecovery st f u n c t now with
    | error e => exact h
    | ok p => exact invO_initiate st f u n c t now p.1 p.2 (by rw [hres]) h
  | submit sid g sh gs =>
    simp only [stepO]
    cases hres : orchSubmitShare st sid g sh gs with
    | error e => exact h
    | ok st2 => exact invO_submit st sid g sh gs st2 hres h
  | check sid now =>
    simp only [stepO]
    exact invO_check st sid now (orchCheckReadiness st sid now).1 _ rfl h
  | execute sid now =>
    simp only [stepO]
    exact invO_execute st sid now (orchExecuteRecovery st sid now).1 _ rfl h
  | cancel sid c gs now =>
    simp only [stepO]
    cases hres : orchCancelRecovery st sid c gs now with
    | error e => exact h
    | ok st2 => exact invO_cancel st sid c gs now st2 hres h

theorem invO_initial : InvO initialOrchState := by
  intro u
  simp [initialOrchState, InvO]

theorem invO_foldl (ops : List OpO) :
    ∀ st : OrchState, InvO st → InvO (ops.foldl stepO st) := by
  induction ops with
  | nil => intro st h; exact h
  | cons op rest ih => intro st h; exact ih (stepO st op) (invO_stepO st op h)

theorem invO_reachable (st : OrchState) (h : ReachableO st) : InvO st := by
  obtain ⟨ops, rfl⟩ := h
  exact invO_foldl ops initialOrchState invO_initial

/-! ## C3: one active recovery per owner, on the ledger and off it -/

/-- Request `id` on the ledger is the active (neither executed nor cancelled)
recovery of owner `o`. -/
def ActiveRequestFor (s : ContractState) (id o : Nat) : Prop :=
  (s.recoveryRequests id).owner = o ∧ o ≠ 0 ∧
  (s.recoveryRequests id).executed = false ∧
  (s.recoveryRequests id).cancelled = false

/-- **C3.** In every reachable ledger state an owner has at most one active
recovery request, and while one is active a further `initiateRecovery` for
that owner reverts with `RecoveryAlreadyActive` (given well-formed addresses,
which are checked first); in every reachable orchestrator state a user has at
most one active session, and while `getActiveSession` finds one a further
`initiateRecovery` for that user throws "Recovery already in progress". -/
theorem C3_single_active_recovery :
    (∀ (s : ContractState) (o id1 id2 : Nat), ReachableC s →
      ActiveRequestFor s id1 o → ActiveRequestFor s id2 o → id1 = id2)
    ∧ (∀ (s : ContractState) (sender o newOwner now id : Nat), ReachableC s →
        ActiveRequestFor s id o → newOwner ≠ 0 → o ≠ newOwner →
        initiateRecovery s sender o newOwner now = .error .RecoveryAlreadyActive)
    ∧ (∀ (st : OrchState) (user : Nat), ReachableO st →
        st.sessions.countP (sessionActiveFor user) ≤ 1)
    ∧ (∀ (st : OrchState) (freshId user newOwner cfgT now : Nat) (sess : SessionO),
        getActiveSessionO st user = some sess → user ≠ 0 → newOwner ≠ 0 →
        user ≠ newOwner →
        orchInitiateRecovery st freshId user newOwner true cfgT now =
          .error "Recovery already in progress. Cancel existing session first.") := by
  have slot : ∀ (s : ContractState) (o id : Nat), InvC s →
      ActiveRequestFor s id o → s.activeRecovery o = id := by
    intro s o id hinv ha
    obtain ⟨h1, ho, he, hc⟩ := ha
    have := hinv.2.2.2 id (by rw [h1]; exact ho) (by rw [he]; exact Bool.false_ne_true)
      (by rw [hc]; exact Bool.false_ne_true)
    rwa [h1] at this
  refine ⟨?_, ?_, ?_, ?_⟩
  · intro s o id1 id2 hr ha1 ha2
    have hinv := invC_reachable s hr
    have e1 := slot s o id1 hinv ha1
    have e2 := slot s o id2 hinv ha2
    rw [e1] at e2
    exact e2
  · intro s sender o newOwner now id hr ha hn hd
    have hinv := invC_reachable s hr
    have hao : s.activeRecovery o = id := slot s o id hinv ha
    have hid : id ≠ 0 := by
      have := hinv.1 id (by rw [ha.1]; exact ha.2.1)
      omega
    unfold initiateRecovery
    rw [if_neg ha.2.1, if_neg hn, if_neg hd, if_pos (by rw [hao]; exact hid)]
  · intro st user hr
    exact invO_reachable st hr user
  · intro st freshId user newOwner cfgT now sess hs hu hn hd
    unfold orchInitiateRecovery
    rw [if_neg (by rintro (h | h); exact hu h; exact hn h), if_neg hd,
      if_neg (by decide), hs]

theorem C3_witness :
    initiateRecovery (execOps [OpC.addGuardian 1 2 2, OpC.setThreshold 1 2,
        OpC.initiateRecovery 2 1 3 0]) 2 1 3 99 = .error .RecoveryAlreadyActive
    ∧ orchInitiateRecovery (execOpsO [OpO.initiate 100 7 8 true 2 0]) 101 7 8 true 2 9
        = .error "Recovery already in progress. Cancel existing session first." :=
  ⟨C3_single_active_recovery.2.1 _ 2 1 3 99 1
      ⟨[OpC.addGuardian 1 2 2, OpC.setThreshold 1 2, OpC.initiateRecovery 2 1 3 0], rfl⟩
      (by refine ⟨?_, ?_, ?_, ?_⟩ <;> decide) (by decide) (by decide),
   C3_single_active_recovery.2.2.2 _ 101 7 8 2 9
      ⟨100, 7, 8, .pending, 2, [], 0, 604800000, none, none⟩
      (by decide) (by decide) (by decide) (by decide)⟩

/-! ## C4: cancellation finality -/

def c4Guardians : List GuardianO := [⟨1, 21⟩, ⟨2, 22⟩]

/-- Initiate for user 7, collect both shares (threshold 2), then the owner
cancels before the time-lock expires. -/
def c4OrchOps : List OpO :=
  [OpO.initiate 100 7 8 true 2 0,
   OpO.submit 100 21 [gfOfNat 1, gfOfNat 10] c4Guardians,
   OpO.submit 100 22 [gfOfNat 2, gfOfNat 20] c4Guardians,
   OpO.cancel 100 7 c4Guardians 5]

/-- The matching ledger scenario: configure owner 1, initiate recovery to 3,
then the owner cancels request 1. -/
def c4LedgerOps : List OpC :=
  [OpC.addGuardian 1 2 2, OpC.setThreshold 1 2,
   OpC.initiateRecovery 2 1 3 0, OpC.cancelRecovery 1 1]

/-- **C4.** The ledger half of the sentence holds: after `cancelRecovery`,
`approveRecovery` and `executeRecovery` on that request revert with
`RecoveryAlreadyCancelled`. The orchestrator half is false in the code:
`RecoveryOrchestrator.executeRecovery` never reads the session's status, so a
reachable cancelled session whose shares were already collected and whose
time-lock has expired is executed anyway — the call succeeds, hands back the
reconstructed secret, and overwrites the cancelled status with `executed`. -/
theorem C4_cancelled_recovery_still_executes :
    ReachableO (execOpsO c4OrchOps)
    ∧ (getSessionO (execOpsO c4OrchOps) 100).map SessionO.status
        = some RecoveryStatusO.cancelled
    ∧ (orchExecuteRecovery (execOpsO c4OrchOps) 100 RECOVERY_DELAY_MS).1.success = true
    ∧ (orchExecuteRecovery (execOpsO c4OrchOps) 100
        RECOVERY_DELAY_MS).1.reconstructedSecret.isSome = true
    ∧ (getSessionO (orchExecuteRecovery (execOpsO c4OrchOps) 100
        RECOVERY_DELAY_MS).2 100).map SessionO.status = some RecoveryStatusO.executed
    ∧ ReachableC (execOps c4LedgerOps)
    ∧ ((execOps c4LedgerOps).recoveryRequests 1).cancelled = true
    ∧ approveRecovery (execOps c4LedgerOps) 2 1
        = .error .RecoveryAlreadyCancelled
    ∧ executeRecovery (execOps c4LedgerOps) 1 604800
        = .error .RecoveryAlreadyCancelled :=
  ⟨⟨c4OrchOps, rfl⟩, by decide, by decide, by decide, by decide,
    ⟨c4LedgerOps, rfl⟩, by decide, by rfl, by rfl⟩
